import Mathlib

/-!
Shallow embedding of the Q-Build-Manager visualization core
(`src/visualization/path_manager.py`, `src/visualization/dts_parser.py`,
`src/visualization/diagram_builder.py`) and proofs about it.

Machine integers are modelled as `Nat` with explicit `% 2 ^ 32` where the
Python code relies on 32-bit overflow (the md5 digest underlying
`DiagramBuilder._get_safe_id`).  Mutable Python objects (the node tree with
parent pointers and the label table holding aliases into it) are modelled by
an arena: nodes live in a list, references are indices.
-/

namespace QBuild

/-! ## Byte-level md5 (as used by `hashlib.md5` in `_get_safe_id`) -/

/-- Per-round left-rotation amounts of md5. -/
def md5shift : List Nat :=
  [7, 12, 17, 22, 7, 12, 17, 22, 7, 12, 17, 22, 7, 12, 17, 22,
   5, 9, 14, 20, 5, 9, 14, 20, 5, 9, 14, 20, 5, 9, 14, 20,
   4, 11, 16, 23, 4, 11, 16, 23, 4, 11, 16, 23, 4, 11, 16, 23,
   6, 10, 15, 21, 6, 10, 15, 21, 6, 10, 15, 21, 6, 10, 15, 21]

/-- Per-round additive constants of md5 (⌊2³²·|sin(i+1)|⌋). -/
def md5K : List Nat :=
  [0xd76aa478, 0xe8c7b756, 0x242070db, 0xc1bdceee,
   0xf57c0faf, 0x4787c62a, 0xa8304613, 0xfd469501,
   0x698098d8, 0x8b44f7af, 0xffff5bb1, 0x895cd7be,
   0x6b901122, 0xfd987193, 0xa679438e, 0x49b40821,
   0xf61e2562, 0xc040b340, 0x265e5a51, 0xe9b6c7aa,
   0xd62f105d, 0x02441453, 0xd8a1e681, 0xe7d3fbc8,
   0x21e1cde6, 0xc33707d6, 0xf4d50d87, 0x455a14ed,
   0xa9e3e905, 0xfcefa3f8, 0x676f02d9, 0x8d2a4c8a,
   0xfffa3942, 0x8771f681, 0x6d9d6122, 0xfde5380c,
   0xa4beea44, 0x4bdecfa9, 0xf6bb4b60, 0xbebfbc70,
   0x289b7ec6, 0xeaa127fa, 0xd4ef3085, 0x04881d05,
   0xd9d4d039, 0xe6db99e5, 0x1fa27cf8, 0xc4ac5665,
   0xf4292244, 0x432aff97, 0xab9423a7, 0xfc93a039,
   0x655b59c3, 0x8f0ccc92, 0xffeff47d, 0x85845dd1,
   0x6fa87e4f, 0xfe2ce6e0, 0xa3014314, 0x4e0811a1,
   0xf7537e82, 0xbd3af235, 0x2ad7d2bb, 0xeb86d391]

def w32 : Nat := 2 ^ 32

/-- 32-bit left rotation. -/
def rotl32 (x s : Nat) : Nat :=
  ((x <<< s) % w32) ||| (x >>> (32 - s))

/-- Bitwise complement within 32 bits. -/
def not32 (x : Nat) : Nat := x ^^^ (w32 - 1)

/-- One md5 round: `i` is the round index, `M` the 16 message words. -/
def md5round (M : List Nat) (st : Nat × Nat × Nat × Nat) (i : Nat) :
    Nat × Nat × Nat × Nat :=
  let (A, B, C, D) := st
  let F :=
    if i < 16 then (B &&& C) ||| (not32 B &&& D)
    else if i < 32 then (D &&& B) ||| (not32 D &&& C)
    else if i < 48 then B ^^^ C ^^^ D
    else C ^^^ (B ||| not32 D)
  let g :=
    if i < 16 then i
    else if i < 32 then (5 * i + 1) % 16
    else if i < 48 then (3 * i + 5) % 16
    else (7 * i) % 16
  let F2 := (F + A + md5K.getD i 0 + M.getD g 0) % w32
  (D, (B + rotl32 F2 (md5shift.getD i 0)) % w32, B, C)

/-- Read a 64-byte chunk as 16 little-endian 32-bit words. -/
def chunkWords (chunk : List Nat) : List Nat :=
  (List.range 16).map fun j =>
    chunk.getD (4 * j) 0 + chunk.getD (4 * j + 1) 0 * 256 +
    chunk.getD (4 * j + 2) 0 * 65536 + chunk.getD (4 * j + 3) 0 * 16777216

/-- Process one chunk against the running state. -/
def md5chunk (st : Nat × Nat × Nat × Nat) (chunk : List Nat) :
    Nat × Nat × Nat × Nat :=
  let M := chunkWords chunk
  let (a0, b0, c0, d0) := st
  let (A, B, C, D) := (List.range 64).foldl (md5round M) (a0, b0, c0, d0)
  ((a0 + A) % w32, (b0 + B) % w32, (c0 + C) % w32, (d0 + D) % w32)

/-- md5 padding: append `0x80`, zeros to 56 mod 64, then the 64-bit
little-endian bit length. -/
def md5pad (m : List Nat) : List Nat :=
  let L := m.length
  let zeros := (56 + 64 - (L + 1) % 64) % 64
  let bitLen := L * 8
  m ++ [0x80] ++ List.replicate zeros 0 ++
    (List.range 8).map fun j => (bitLen >>> (8 * j)) % 256

/-- Split a list into 64-element chunks (fuel-driven, structural). -/
def chunks64 : Nat → List Nat → List (List Nat)
  | 0, _ => []
  | _, [] => []
  | fuel + 1, l => l.take 64 :: chunks64 fuel (l.drop 64)

/-- The little-endian bytes of a 32-bit word. -/
def wordLE (w : Nat) : List Nat :=
  (List.range 4).map fun j => (w >>> (8 * j)) % 256

/-- The md5 digest of a byte list, as 16 bytes. -/
def md5bytes (m : List Nat) : List Nat :=
  let padded := md5pad m
  let st :=
    (chunks64 padded.length padded).foldl md5chunk
      (0x67452301, 0xefcdab89, 0x98badcfe, 0x10325476)
  wordLE st.1 ++ wordLE st.2.1 ++ wordLE st.2.2.1 ++ wordLE st.2.2.2

def hexDigit (n : Nat) : Char :=
  "0123456789abcdef".data.getD n '0'

/-- Lowercase hex rendering of a byte list (`hexdigest`). -/
def hexOfBytes (bs : List Nat) : String :=
  ⟨bs.foldr (fun b acc => hexDigit (b / 16) :: hexDigit (b % 16) :: acc) []⟩

/-- UTF-8 encoding of one Unicode scalar value. -/
def utf8EncChar (n : Nat) : List Nat :=
  if n < 0x80 then [n]
  else if n < 0x800 then [0xc0 + n / 64, 0x80 + n % 64]
  else if n < 0x10000 then
    [0xe0 + n / 4096, 0x80 + (n / 64) % 64, 0x80 + n % 64]
  else
    [0xf0 + n / 262144, 0x80 + (n / 4096) % 64, 0x80 + (n / 64) % 64,
     0x80 + n % 64]

/-- `str.encode()`: UTF-8 bytes of a string. -/
def utf8Bytes (s : String) : List Nat :=
  s.data.foldr (fun c acc => utf8EncChar c.toNat ++ acc) []

/-- `hashlib.md5(s.encode()).hexdigest()`. -/
def md5hex (s : String) : String := hexOfBytes (md5bytes (utf8Bytes s))

/-! ## Python string helpers -/

/-- The whitespace characters stripped by Python's `str.strip()`
(space, tab, newline, carriage return, vertical tab, form feed). -/
def isPyWs (c : Char) : Bool :=
  c = ' ' || c = '\t' || c = '\n' || c = '\r' ||
  c = Char.ofNat 11 || c = Char.ofNat 12

/-- Strip characters satisfying `p` from both ends of a char list. -/
def stripBy (p : Char → Bool) (l : List Char) : List Char :=
  ((l.dropWhile p).reverse.dropWhile p).reverse

/-- Python `s.strip()`. -/
def pyStrip (s : String) : String := ⟨stripBy isPyWs s.data⟩

/-- Python `s.strip('<>"')` as used on include filenames. -/
def stripAngleQuote (s : String) : String :=
  ⟨stripBy (fun c => c = '<' || c = '>' || c = '"') s.data⟩

/-- Python `sub in s` substring membership. -/
def strContains (s sub : String) : Bool :=
  s.data.tails.any (fun t => sub.data.isPrefixOf t)

/-- Python `s.startswith(pre)`. -/
def strStartsWith (s pre : String) : Bool := pre.data.isPrefixOf s.data

/-- Python `s.endswith(suf)`. -/
def strEndsWith (s suf : String) : Bool := suf.data.isSuffixOf s.data

/-- Python `s.lower()` (ASCII, which is all the source ever feeds it). -/
def pyLower (s : String) : String := ⟨s.data.map Char.toLower⟩

/-- Python `s.upper()`. -/
def pyUpper (s : String) : String := ⟨s.data.map Char.toUpper⟩

/-- Python `s.replace(a, b)` for single characters, the only form used. -/
def pyReplaceChar (s : String) (a : Char) (b : Option Char) : String :=
  ⟨s.data.foldr
    (fun c acc => if c = a then (match b with | some x => x :: acc | none => acc)
     else c :: acc) []⟩

/-- Python `s.replace('"', '')`. -/
def dropQuotes (s : String) : String := pyReplaceChar s '"' none

/-- Python `s.split(sep)` for a single-character separator (keeps empty
groups, exactly like `List.splitOn`). -/
def pySplitChar (c : Char) (s : String) : List String :=
  (s.data.splitOn c).map (fun l => (⟨l⟩ : String))

/-- Python `s.split(sep, 1)`: the text before and after the first `sep`. -/
def pySplitFirst (c : Char) (s : String) : String × String :=
  (⟨s.data.takeWhile (· ≠ c)⟩, ⟨(s.data.dropWhile (· ≠ c)).drop 1⟩)

/-- Word characters of the regex `\w` (ASCII). -/
def isWordChar (c : Char) : Bool :=
  c.isAlpha || c.isDigit || c = '_'

/-- Python `str.title()`: uppercase each letter that follows a non-letter,
lowercase the rest. -/
def pyTitle (s : String) : String :=
  ⟨(s.data.foldl
      (fun (st : List Char × Bool) c =>
        if c.isAlpha then
          ((if st.2 then c.toLower else c.toUpper) :: st.1, true)
        else (c :: st.1, false))
      ([], false)).1.reverse⟩

/-! ## The diagram builder's content-addressed ids -/

/-- `DiagramBuilder._get_safe_id`: `"node_"` plus the first 8 hex characters
of the md5 digest of the raw identifier; a falsy (empty) identifier maps to
`"node_unknown"`. -/
def getSafeId (rawId : String) : String :=
  if rawId = "" then "node_unknown"
  else "node_" ++ ⟨(md5hex rawId).data.take 8⟩

/-! ## DtsParser: comment stripping and include extraction

`re.sub(r'/\*.*?\*/', '', content, flags=re.DOTALL)` removes each block
comment up to the nearest `*/`; an unterminated `/*` has no match and its
text is kept.  Modelled as a character state machine: mode 0 = plain text,
mode 1 = just saw `/`, mode 2 = inside a comment, mode 3 = inside a comment
after `*`; `pend` buffers the (reversed) text of the candidate comment so it
can be restored if the input ends before `*/`. -/

def blockStep (st : List Char × List Char × Nat) (c : Char) :
    List Char × List Char × Nat :=
  let (out, pend, mode) := st
  if mode = 0 then
    if c = '/' then (out, [c], 1) else (c :: out, pend, 0)
  else if mode = 1 then
    if c = '*' then (out, c :: pend, 2)
    else if c = '/' then ('/' :: out, [c], 1)
    else (c :: '/' :: out, [], 0)
  else if mode = 2 then
    if c = '*' then (out, c :: pend, 3) else (out, c :: pend, 2)
  else
    if c = '/' then (out, [], 0)
    else if c = '*' then (out, c :: pend, 3)
    else (out, c :: pend, 2)

/-- Remove C block comments (shortest match, unterminated text kept). -/
def stripBlockComments (l : List Char) : List Char :=
  let (out, pend, _) := l.foldl blockStep ([], [], 0)
  (pend ++ out).reverse

/-- State machine for `re.sub(r'//.*', '', content)`: mode 0 = plain text,
mode 1 = just saw `/`, mode 2 = inside a line comment (dropped up to but not
including the newline). -/
def lineStep (st : List Char × Nat) (c : Char) : List Char × Nat :=
  let (out, mode) := st
  if mode = 0 then
    if c = '/' then (out, 1) else (c :: out, 0)
  else if mode = 1 then
    if c = '/' then (out, 2) else (c :: '/' :: out, 0)
  else
    if c = '\n' then (c :: out, 0) else (out, 2)

/-- Remove `//` line comments. -/
def stripLineComments (l : List Char) : List Char :=
  let (out, mode) := l.foldl lineStep ([], 0)
  (if mode = 1 then ('/' :: out) else out).reverse

/-- Scanner for `re.findall(r'#include\s+["<]([^">]+)[">]', content)`:
at each position try to match the literal `#include`, at least one
whitespace, an opening `"` or `<`, a non-empty run free of `"`/`>`, and a
closing `"` or `>`; on failure advance one character, on success continue
after the match.  Fuel is the remaining length, which bounds the scan. -/
def findIncludesAux : Nat → List Char → List String
  | 0, _ => []
  | _, [] => []
  | fuel + 1, c :: cs =>
    let chars := c :: cs
    if "#include".data.isPrefixOf chars then
      let rest := chars.drop 8
      let ws := rest.takeWhile isPyWs
      let rest1 := rest.drop ws.length
      match rest1 with
      | d :: body0 =>
        if ws ≠ [] ∧ (d = '"' ∨ d = '<') then
          let body := body0.takeWhile (fun x => x ≠ '"' ∧ x ≠ '>')
          let rest2 := body0.drop body.length
          match rest2 with
          | e :: tl =>
            if body ≠ [] ∧ (e = '"' ∨ e = '>') then
              (⟨body⟩ : String) :: findIncludesAux fuel tl
            else findIncludesAux fuel cs
          | [] => findIncludesAux fuel cs
        else findIncludesAux fuel cs
      | [] => findIncludesAux fuel cs
    else findIncludesAux fuel cs

/-- All `#include` filenames of a file, in order (found on the raw content,
before comment stripping, as in `_parse_recursive`). -/
def findIncludes (s : String) : List String :=
  findIncludesAux s.data.length s.data

/-! ## DtsParser: data model

Python's mutable `DtsNode` object graph (parent pointers, a label table
aliasing into the tree, a node stack) is modelled by an arena: nodes live in
a list, references are indices, index 0 is `self.root`. -/

/-- A property value: raw text for `name = value;`, or the boolean `True`
for a valueless `name;`. -/
inductive PropVal where
  | str (v : String) : PropVal
  | flag : PropVal
  deriving DecidableEq, Repr

/-- One `DtsNode`.  `label` is `none` when the constructor got Python
`None` and `some s` when it got the string `s` (possibly empty). -/
structure NodeData where
  name : String
  label : Option String
  parent : Option Nat
  props : List (String × PropVal)
  children : List Nat
  deriving DecidableEq, Repr

/-- `node.label or fallback`: Python truthiness makes both `None` and the
empty string fall through. -/
def labelOr (n : NodeData) (fallback : String) : String :=
  match n.label with
  | some l => if l = "" then fallback else l
  | none => fallback

/-- A DAI link record as built by `_post_process_dailinks`. -/
structure DaiLink where
  name : String
  cpu : List String
  codec : List String
  platform : List String
  deriving DecidableEq, Repr

/-- The `DtsParser` object state. -/
structure DtsParserSt where
  base_path : String
  arena : List NodeData
  labels : List (String × Nat)
  includes : List String
  routing : List (String × String)
  dailinks : List DaiLink
  deriving DecidableEq, Repr

/-- Ordered-dictionary write: overwrite in place if the key exists
(keeping its position, as Python dicts do), else append. -/
def dictSet {α : Type} (m : List (String × α)) (k : String) (v : α) :
    List (String × α) :=
  if m.any (fun kv => kv.1 = k) then
    m.map (fun kv => if kv.1 = k then (k, v) else kv)
  else m ++ [(k, v)]

/-- Dictionary lookup (`dict.get`). -/
def dictGet {α : Type} (m : List (String × α)) (k : String) : Option α :=
  (m.find? (fun kv => kv.1 = k)).map (·.2)

/-- The filesystem visible to the parser: resolved path ↦ file content. -/
def Fs : Type := List (String × String)

def fsGet (fs : Fs) (p : String) : Option String := dictGet fs p

/-- `os.path.join` for the POSIX cases the code exercises. -/
def pjoin (a b : String) : String :=
  if strStartsWith b "/" then b
  else if a = "" then b
  else if strEndsWith a "/" then a ++ b
  else a ++ "/" ++ b

/-- Include-path resolution of `_parse_recursive`: try `base/clean`,
`base/qcom/clean`, then `clean` itself; first existing file wins. -/
def resolvePath (fs : Fs) (basePath clean : String) : Option String :=
  [pjoin basePath clean, pjoin (pjoin basePath "qcom") clean, clean].find?
    (fun c => (fsGet fs c).isSome)

instance : Inhabited NodeData := ⟨⟨"", none, none, [], []⟩⟩

/-- Modify the node at arena index `i` (no-op when out of range, which
never happens for parser-made indices). -/
def modifyNode (arena : List NodeData) (i : Nat) (f : NodeData → NodeData) :
    List NodeData :=
  match arena.get? i with
  | some n => arena.set i (f n)
  | none => arena

/-! ## DtsParser: the tokenizer loop

`re.split(r'([\{\};])', content)` cuts the text at `{`, `}`, `;` keeping the
delimiters; traversing those tokens while `buffer += token` on plain text is
observationally a character-by-character fold, which is how it is modelled:
the fold state is (parser state, node stack with its head as Python's
`stack[-1]`, accumulation buffer). -/

/-- The label of a node header: `if ':' in header: parts[0].strip()`,
else Python `None`. -/
def headerLabel (header : String) : Option String :=
  if header.data.contains ':' then
    some (pyStrip ((pySplitChar ':' header).headD ""))
  else none

/-- The name of a node header: `parts[-1].strip()` when a colon is
present, else the whole header. -/
def headerName (header : String) : String :=
  if header.data.contains ':' then pyStrip ((pySplitChar ':' header).getLastD "")
  else header

def procChar (acc : DtsParserSt × List Nat × List Char) (c : Char) :
    DtsParserSt × List Nat × List Char :=
  let (st, stack, buffer) := acc
  if c = '{' then
    let header := pyStrip ⟨buffer⟩
    let label? : Option String := headerLabel header
    let name := headerName header
    let top := stack.headD 0
    let (st1, node) :=
      if name = "/" then (st, 0)
      else if strStartsWith name "&" then
        (st, (dictGet st.labels (⟨name.data.drop 1⟩ : String)).getD top)
      else
        let idx := st.arena.length
        let arena1 := st.arena ++ [⟨name, label?, some top, [], []⟩]
        let arena2 := modifyNode arena1 top
          (fun n => { n with children := n.children ++ [idx] })
        ({ st with arena := arena2 }, idx)
    let st2 :=
      match label? with
      | some l =>
        if l ≠ "" then { st1 with labels := dictSet st1.labels l node }
        else st1
      | none => st1
    (st2, node :: stack, [])
  else if c = '}' then
    (st, (if stack.length > 1 then stack.tail else stack), [])
  else if c = ';' then
    let stmt := pyStrip ⟨buffer⟩
    let top := stack.headD 0
    let upd : NodeData → NodeData := fun n =>
      if stmt.data.contains '=' then
        let kv := pySplitFirst '=' stmt
        let newProps := dictSet n.props (pyStrip kv.1) (PropVal.str (pyStrip kv.2))
        { n with props := newProps }
      else
        { n with props := dictSet n.props stmt PropVal.flag }
    let st1 :=
      if stmt ≠ "" ∧ stack ≠ [] then
        { st with arena := modifyNode st.arena top upd }
      else st
    (st1, stack, [])
  else (st, stack, buffer ++ [c])

/-- Tokenize-and-build for one file body (comments already stripped). -/
def processContent (st : DtsParserSt) (content : List Char)
    (currentRoot : Nat) : DtsParserSt :=
  (content.foldl procChar (st, [currentRoot], [])).1

/-- `DtsParser._parse_recursive`.  Fuel counts nested include expansions;
`none` marks fuel exhaustion (never reached with fuel `fs.length + 1`, see
`parseRecursive_total`). -/
def parseRecursive (fs : Fs) :
    Nat → String → Nat → DtsParserSt → Option DtsParserSt
  | 0, _, _, _ => none
  | fuel + 1, filename, currentRoot, st =>
    match resolvePath fs st.base_path (stripAngleQuote filename) with
    | none => some st
    | some path =>
      if path ∈ st.includes then some st
      else
        match (findIncludes ((fsGet fs path).getD "")).foldlM
            (fun s inc => parseRecursive fs fuel inc currentRoot s)
            { st with includes := st.includes ++ [path] } with
        | none => none
        | some st2 =>
          some (processContent st2
            (stripLineComments (stripBlockComments ((fsGet fs path).getD "").data))
            currentRoot)

/-! ## DtsParser: post-processing -/

/-- The node object refered to by arena index `i`. -/
def nodeAt (arena : List NodeData) (i : Nat) : NodeData :=
  arena.getD i default

/-- Check 1 of `get_sound_card_node`: a `compatible` property whose value
contains a sound-card marker.  A valueless `compatible;` stores Python
`True`, on which the `in` test would raise; such inputs never return
normally in Python, so the model's `false` only widens the domain. -/
def soundMarkerHit (props : List (String × PropVal)) : Bool :=
  match dictGet props "compatible" with
  | some (.str s) => strContains s "sndcard" || strContains s "audio-card"
  | _ => false

/-- Check 2: the node has an `audio-routing` property. -/
def hasAudioRouting (props : List (String × PropVal)) : Bool :=
  (dictGet props "audio-routing").isSome

/-- Check 3 (weakest): name contains `sound` but not `pinctrl`. -/
def soundNameHit (n : NodeData) : Bool :=
  strContains n.name "sound" && !strContains n.name "pinctrl"

/-- The breadth-first loop of `get_sound_card_node`: dequeue, return on
check 1 or check 2, collect check-3 candidates, enqueue children; when the
queue empties, the first candidate (if any). -/
def soundCardAux (arena : List NodeData) :
    Nat → List Nat → List Nat → Option Nat
  | 0, _, cands => cands.head?
  | _, [], cands => cands.head?
  | fuel + 1, i :: queue, cands =>
    if soundMarkerHit (nodeAt arena i).props then some i
    else if hasAudioRouting (nodeAt arena i).props then some i
    else
      soundCardAux arena fuel (queue ++ (nodeAt arena i).children)
        (if soundNameHit (nodeAt arena i) then cands ++ [i] else cands)

/-- Fuel that drains the queue on any parser-built tree: one per node and
one per child-list entry. -/
def bfsFuel (arena : List NodeData) : Nat :=
  1 + arena.length + (arena.map (fun n => n.children.length)).sum

/-- `DtsParser.get_sound_card_node` (result as an arena index). -/
def getSoundCardNode (st : DtsParserSt) : Option Nat :=
  soundCardAux st.arena (bfsFuel st.arena) [0] []

/-- One entry of `get_hardware_nodes`. -/
structure HwNode where
  id : String
  label : String
  type : String
  full_name : String
  deriving DecidableEq, Repr

/-- The `compatible` string of a node (`props.get("compatible", "")`); a
valueless `compatible;` would raise in Python's `in` test, see
`soundMarkerHit`. -/
def compatStr (n : NodeData) : String :=
  match dictGet n.props "compatible" with
  | some (.str s) => s
  | _ => ""

/-- Type detection of `get_hardware_nodes`. -/
def hwClassify (n : NodeData) : String :=
  if strContains (compatStr n) "qcom,wcd" || strContains n.name "wcd9" then
    "codec"
  else if strContains (compatStr n) "qcom,wsa" || strContains n.name "wsa8" then
    "amp"
  else if strContains (compatStr n) "qcom,lpass" || strContains n.name "lpass"
  then "soc"
  else "component"

/-- The scan loop of `get_hardware_nodes` (breadth-first, collecting every
node whose detected type is not `component`). -/
def hwLoopAux (arena : List NodeData) :
    Nat → List Nat → List HwNode → List HwNode
  | 0, _, acc => acc
  | _, [], acc => acc
  | fuel + 1, i :: queue, acc =>
    hwLoopAux arena fuel (queue ++ (nodeAt arena i).children)
      (if hwClassify (nodeAt arena i) ≠ "component" then
        acc ++ [⟨labelOr (nodeAt arena i) ("n_" ++ toString i),
                 pyUpper ⟨(labelOr (nodeAt arena i)
                   (nodeAt arena i).name).data.takeWhile (· ≠ '@')⟩,
                 hwClassify (nodeAt arena i), (nodeAt arena i).name⟩]
      else acc)

/-- `DtsParser.get_hardware_nodes`; Python's `id(snd)` object identity is
modelled by the arena index. -/
def getHardwareNodes (st : DtsParserSt) : List HwNode :=
  let base :=
    match getSoundCardNode st with
    | some i =>
      let n := st.arena.getD i default
      [⟨labelOr n ("snd_" ++ toString i), "Sound Card", "sndcard", n.name⟩]
    | none => []
  base ++ hwLoopAux st.arena (bfsFuel st.arena) [0] []

/-- `re.findall(r'"([^"]+)"', raw)` as a character state machine: a quote
opens a span, a quote after a non-empty span closes and emits it, a quote
after an empty span re-opens, and an unterminated span is discarded. -/
def qsStep (st : List (List Char) × Option (List Char)) (c : Char) :
    List (List Char) × Option (List Char) :=
  let (out, cur) := st
  match cur with
  | none => if c = '"' then (out, some []) else (out, none)
  | some a =>
    if c = '"' then
      if a = [] then (out, some []) else (out ++ [a], none)
    else (out, some (a ++ [c]))

def quotedSpans (s : String) : List String :=
  ((s.data.foldl qsStep ([], none)).1).map (fun l => (⟨l⟩ : String))

/-- The pairing loop of `_post_process_routing`:
`for i in range(0, len(parts)-1, 2): append((parts[i], parts[i+1]))`. -/
def pairRangeCode (parts : List String) : List (String × String) :=
  (List.range (parts.length / 2)).map
    (fun k => (parts.getD (2 * k) "", parts.getD (2 * k + 1) ""))

/-- `DtsParser._post_process_routing`.  A valueless `audio-routing;` stores
`True`, on which `re.findall` would raise in Python; modelled as a no-op
(again only widening the domain). -/
def postProcessRouting (st : DtsParserSt) : DtsParserSt :=
  match getSoundCardNode st with
  | none => st
  | some i =>
    match dictGet (st.arena.getD i default).props "audio-routing" with
    | some (.str raw) =>
      { st with routing := st.routing ++ pairRangeCode (quotedSpans raw) }
    | _ => st

/-- `re.findall(r'&([\w_]+)', val)`: emit each maximal non-empty word-char
run following a `&`. -/
def phStep (st : List (List Char) × Option (List Char)) (c : Char) :
    List (List Char) × Option (List Char) :=
  let (out, cur) := st
  if c = '&' then
    match cur with
    | some a => if a ≠ [] then (out ++ [a], some []) else (out, some [])
    | none => (out, some [])
  else if isWordChar c then
    match cur with
    | some a => (out, some (a ++ [c]))
    | none => (out, none)
  else
    match cur with
    | some a => if a ≠ [] then (out ++ [a], none) else (out, none)
    | none => (out, none)

def phandleRefs (s : String) : List String :=
  (match s.data.foldl phStep ([], none) with
   | (out, some a) => if a ≠ [] then out ++ [a] else out
   | (out, none) => out).map (fun l => (⟨l⟩ : String))

/-- `DtsParser._extract_phandle`.  A valueless `sound-dai;` would raise in
Python's `re.findall`; modelled as the empty list. -/
def extractPhandle (st : DtsParserSt) (node : NodeData) (subName : String) :
    List String :=
  match node.children.find?
      (fun c => (st.arena.getD c default).name = subName) with
  | none => []
  | some c =>
    match dictGet (st.arena.getD c default).props "sound-dai" with
    | some (.str v) => phandleRefs v
    | some .flag => []
    | none => phandleRefs ""

/-- The DaiLink record built from one child of the sound-card node.  A
valueless `link-name;` would raise in Python's `.replace`; modelled by
falling back to the child name. -/
def mkDaiLink (st : DtsParserSt) (child : NodeData) : DaiLink :=
  { name :=
      match dictGet child.props "link-name" with
      | some (.str s) => dropQuotes s
      | _ => dropQuotes child.name
    cpu := extractPhandle st child "cpu"
    codec := extractPhandle st child "codec"
    platform := extractPhandle st child "platform" }

/-- The DAI-link list extracted from the children of the sound-card node
at arena index `i`. -/
def linksOf (st : DtsParserSt) (i : Nat) : List DaiLink :=
  (st.arena.getD i default).children.foldl
    (fun acc cIdx =>
      if strContains (st.arena.getD cIdx default).name "dai-link" ||
          (dictGet (st.arena.getD cIdx default).props "link-name").isSome
      then acc ++ [mkDaiLink st (st.arena.getD cIdx default)]
      else acc)
    []

/-- `DtsParser._post_process_dailinks`. -/
def postProcessDailinks (st : DtsParserSt) : DtsParserSt :=
  match getSoundCardNode st with
  | none => st
  | some i => { st with dailinks := st.dailinks ++ linksOf st i }

/-- The parser's initial root node (`DtsNode("/")`). -/
def rootNode : NodeData := ⟨"/", none, none, [], []⟩

/-- `DtsParser(base_path).parse(filename)` over the modelled filesystem. -/
def dtsParse (fs : Fs) (basePath filename : String) : Option DtsParserSt :=
  match parseRecursive fs (fs.length + 1) filename 0
      ⟨basePath, [rootNode], [], [], [], []⟩ with
  | none => none
  | some st1 => some (postProcessDailinks (postProcessRouting st1))

/-! ## DiagramBuilder: the cytoscape graph (`build_graph_json`) -/

/-- An output graph node; `parent := none` models the `parent` dict key
being absent (the code never stores a `None` parent). -/
structure GNode where
  id : String
  label : String
  type : String
  full_name : String
  parent : Option String
  deriving DecidableEq, Repr

structure GEdge where
  source : String
  target : String
  kind : String
  label : String
  deriving DecidableEq, Repr

/-- The builder's mutable locals: the insertion-ordered `node_map` (keys
are safe ids) and the `edges` list. -/
structure BState where
  nodeMap : List (String × GNode)
  edges : List GEdge
  deriving DecidableEq, Repr

/-- `DiagramBuilder.sanitize_label`. -/
def sanitizeLabel (text : String) : String :=
  if text = "" then "Block"
  else
    let c1 := text.data.takeWhile (· ≠ '"')
    let c2 := c1.takeWhile (· ≠ '<')
    let c3 := c2.map (fun c => if c = '_' then ' ' else c)
    let t := pyTitle ⟨c3⟩
    if t.data.length > 25 then (⟨t.data.take 22⟩ : String) ++ "..." else t

/-- `DiagramBuilder._is_high_level_node`. -/
def isHighLevelNode (n : HwNode) : Bool :=
  let label := pyLower n.label
  let nid := pyLower n.id
  if strContains label "#include" || strContains label "dt-bindings" then
    false
  else if strContains nid "pinctrl" || strContains nid "gpio" then false
  else true

/-- In-place parent assignment on the entry keyed `sid`. -/
def setParent (m : List (String × GNode)) (sid p : String) :
    List (String × GNode) :=
  m.map (fun kv =>
    if kv.1 = sid then (kv.1, { kv.2 with parent := some p }) else kv)

/-- In-place parent assignment with an optional lane. -/
def setParentOpt (m : List (String × GNode)) (sid : String)
    (p : Option String) : List (String × GNode) :=
  m.map (fun kv =>
    if kv.1 = sid then (kv.1, { kv.2 with parent := p }) else kv)

/-- The node value stored for a fresh raw id (label sanitized and
quote-stripped, empty full name falling back to the raw id, empty type to
`component`, no parent yet). -/
def freshNode (rawId : String) (label : Option String) (ntype : String)
    (fullName : Option String) : GNode :=
  { id := getSafeId rawId
    label := dropQuotes (sanitizeLabel (label.getD rawId))
    type := if ntype = "" then "component" else ntype
    full_name :=
      match fullName with
      | some f => if f = "" then rawId else f
      | none => rawId
    parent := none }

/-- Insert the node under its safe id unless that key is present. -/
def addNodeMap (m : List (String × GNode)) (rawId : String)
    (label : Option String) (ntype : String) (fullName : Option String) :
    List (String × GNode) :=
  if (dictGet m (getSafeId rawId)).isSome then m
  else m ++ [(getSafeId rawId, freshNode rawId label ntype fullName)]

/-- `add_node`: insert under the safe id unless present, then override the
parent when one was passed; returns the map and the sid (or `none` for a
falsy raw id). -/
def addNodeRaw (m : List (String × GNode)) (rawId : String)
    (label : Option String) (ntype : String) (fullName : Option String)
    (parent : Option String) : List (String × GNode) × Option String :=
  if rawId = "" then (m, none)
  else
    (match parent with
     | none => addNodeMap m rawId label ntype fullName
     | some p => setParent (addNodeMap m rawId label ntype fullName)
         (getSafeId rawId) p,
     some (getSafeId rawId))

/-- `classify_parent_for`: the lane heuristic over (label, full_name,
type). -/
def classifyParentFor (m : List (String × GNode)) (sid : String) :
    Option String :=
  match dictGet m sid with
  | none => some "grp_lpass"
  | some n =>
    if n.type = "group" then none
    else
      let lbl := pyLower n.label
      let fn := pyLower n.full_name
      let t := n.type
      if strContains lbl "spkr" || strContains lbl "speaker" ||
          strContains fn "spkr" || strContains fn "speaker" then
        some "grp_speakers"
      else if t == "codec" || t == "amp" ||
          ["wcd", "wsa", "codec", "amp", "max98357"].any
            (fun x => strContains lbl x) ||
          ["wcd", "wsa", "codec", "amp", "max98357"].any
            (fun x => strContains fn x) then
        some "grp_peripherals"
      else if t == "bus" ||
          ["soundwire", "pcm", "tdm", "dmic"].any
            (fun x => strContains lbl x) then
        some "grp_buses"
      else if t == "sndcard" then some "grp_host"
      else some "grp_lpass"

/-- `ensure_parent`: assign a lane to a laneless non-group node. -/
def ensureParent (m : List (String × GNode)) (sid : String) :
    List (String × GNode) :=
  match dictGet m sid with
  | none => m
  | some n =>
    if n.type = "group" then m
    else if n.parent.isSome then m
    else setParentOpt m sid (classifyParentFor m sid)

/-- `add_edge`: materialize both endpoints, give them lanes, append the
edge; on a falsy endpoint the node-map mutations persist but no edge is
recorded. -/
def addEdge (st : BState) (kind srcRaw dstRaw label : String) : BState :=
  match (addNodeRaw st.nodeMap srcRaw none "component" none none).2,
      (addNodeRaw (addNodeRaw st.nodeMap srcRaw none "component" none none).1
        dstRaw none "component" none none).2 with
  | some s, some d =>
    { nodeMap := ensureParent (ensureParent
        (addNodeRaw (addNodeRaw st.nodeMap srcRaw none "component" none none).1
          dstRaw none "component" none none).1 s) d
      edges := st.edges ++ [⟨s, d, kind, dropQuotes label⟩] }
  | _, _ =>
    { st with nodeMap := (addNodeRaw
        (addNodeRaw st.nodeMap srcRaw none "component" none none).1
        dstRaw none "component" none none).1 }

/-- `is_macro`. -/
def isMacroTok (tok : String) : Bool :=
  strStartsWith (pyLower tok) "lpass_" && strContains (pyLower tok) "macro"

/-- `macro_name`. -/
def macroKeyLab (tok : String) : String × String :=
  let tl := pyLower tok
  if strContains tl "rxmacro" then ("rxmacro", "Lpaif Rx")
  else if strContains tl "txmacro" then ("txmacro", "Lpaif Tx")
  else if strContains tl "wsamacro" then ("wsamacro", "Wsa Macro")
  else if strContains tl "vamacro" then ("vamacro", "Va Macro")
  else ("macro", "Macro")

/-- `is_platform`. -/
def isPlatformTok (tok : String) : Bool :=
  strStartsWith (pyLower tok) "q6apm" || pyLower tok == "q6apm"

def natOfDigits (ds : List Char) : Nat :=
  ds.foldl (fun a c => a * 10 + (c.toNat - 48)) 0

/-- `re.search(r'\bswr(\d+)\b', tl)`: leftmost occurrence of `swr` at a
word boundary followed by digits ending at a word boundary. -/
def swrSearchAux : Nat → Option Char → List Char → Option Nat
  | 0, _, _ => none
  | _, _, [] => none
  | fuel + 1, prev, c :: cs =>
    let boundaryOk := match prev with | none => true | some p => !isWordChar p
    if boundaryOk && "swr".data.isPrefixOf (c :: cs) then
      let after := (c :: cs).drop 3
      let ds := after.takeWhile Char.isDigit
      let rest := after.drop ds.length
      let endOk := match rest with | [] => true | r :: _ => !isWordChar r
      if !ds.isEmpty && endOk then some (natOfDigits ds)
      else swrSearchAux fuel (some c) cs
    else swrSearchAux fuel (some c) cs

/-- `swr_index` (and `is_swr` via `isSome`). -/
def swrIndexOf (tok : String) : Option Nat :=
  swrSearchAux (pyLower tok).data.length none (pyLower tok).data

def isSwrTok (tok : String) : Bool := (swrIndexOf tok).isSome

/-- `endpoint_label`. -/
def endpointLabel (tok : String) : String :=
  let tl := pyLower tok
  if strContains tl "left_spkr" then "Left Spk"
  else if strContains tl "right_spkr" then "Right Spk"
  else if strContains tl "wcd" then pyUpper tok
  else if strContains tl "wsa" then pyUpper tok
  else if strContains tl "max98357" then "MAX98357A"
  else sanitizeLabel tok

/-- `endpoint_type`. -/
def endpointType (tok : String) : String :=
  if strContains (pyLower tok) "spkr" then "speaker"
  else if strContains (pyLower tok) "wsa" ||
      strContains (pyLower tok) "max98357" then "amp"
  else "codec"

def grpNode (k lab : String) : String × GNode := (k, ⟨k, lab, "group", lab, none⟩)

/-- The five seeded lane containers. -/
def seedGroups : List (String × GNode) :=
  [grpNode "grp_host" "Host / APSS", grpNode "grp_lpass" "LPASS",
   grpNode "grp_buses" "Audio Buses", grpNode "grp_peripherals" "Peripherals",
   grpNode "grp_speakers" "Speakers"]

/-- The classification pass over one link's codec-side tokens. -/
structure LinkAcc where
  b : BState
  macrosL : List (String × String)
  masters : List (Nat × String)
  endpoints : List String

def procCodecTok (acc : LinkAcc) (tok : String) : LinkAcc :=
  if tok = "" then acc
  else if isPlatformTok tok then acc
  else if isMacroTok tok then
    let kl := macroKeyLab tok
    let mid := "lpass." ++ kl.1
    let m1 := (addNodeRaw acc.b.nodeMap mid (some kl.2) "soc"
      (some ("LPASS " ++ kl.2)) (some "grp_lpass")).1
    { acc with b := { acc.b with nodeMap := m1 },
               macrosL := acc.macrosL ++ [(mid, kl.2)] }
  else if isSwrTok tok then
    match swrIndexOf tok with
    | some idx =>
      if acc.masters.any (fun p => p.1 = idx) then acc
      else
        let bid := "bus.swr" ++ toString idx
        let m1 := (addNodeRaw acc.b.nodeMap bid
          (some ("SWR" ++ toString idx ++ " Master")) "bus"
          (some ("SoundWire SWR" ++ toString idx ++ " Master"))
          (some "grp_buses")).1
        { acc with b := { acc.b with nodeMap := m1 },
                   masters := acc.masters ++ [(idx, bid)] }
    | none => acc
  else
    let typ := endpointType tok
    let par := if typ = "speaker" then "grp_speakers" else "grp_peripherals"
    let m1 := (addNodeRaw acc.b.nodeMap tok (some (endpointLabel tok)) typ
      (some tok) (some par)).1
    { acc with b := { acc.b with nodeMap := m1 },
               endpoints := acc.endpoints ++ [tok] }

/-- Register the link's CPU-side tokens (`grp_lpass` lane). -/
def linkCpus (b : BState) (cpus : List String) : BState :=
  cpus.foldl (fun b cpu =>
    { b with nodeMap := (addNodeRaw b.nodeMap cpu (some cpu) "cpu" (some cpu)
        (some "grp_lpass")).1 }) b

/-- Wire SPF to the macros, macros to the bus masters — or SPF straight to
the masters when the link has no macros. -/
def linkWireSpf (b : BState) (macrosL : List (String × String))
    (masters : List (Nat × String)) : BState :=
  if macrosL ≠ [] then
    macrosL.foldl (fun b p => masters.foldl
      (fun bb q => addEdge bb "hardware" p.1 q.2 "") b)
      (macrosL.foldl (fun b p => addEdge b "hardware" "lpass.spf" p.1 "") b)
  else
    masters.foldl (fun b q => addEdge b "hardware" "lpass.spf" q.2 "") b

/-- Wire bus masters (or macros, or the PCM/TDM fallback) to the link's
endpoints, synthesizing the implicit WSA amplifier for bare speakers. -/
def linkWireMain (b : BState) (macrosL : List (String × String))
    (masters : List (Nat × String)) (endpoints : List String) : BState :=
  if masters ≠ [] ∧ endpoints ≠ [] then
    masters.foldl (fun b q =>
      endpoints.foldl (fun bb ep =>
        if (endpoints.any (fun e => strContains (pyLower e) "spkr")) &&
            !(endpoints.any (fun e => strContains (pyLower e) "wsa")) &&
            strContains (pyLower ep) "spkr" then bb
        else addEdge bb "hardware" q.2 ep "")
        (if (endpoints.any (fun e => strContains (pyLower e) "spkr")) &&
            !(endpoints.any (fun e => strContains (pyLower e) "wsa")) then
          endpoints.foldl (fun bb ep =>
            if strContains (pyLower ep) "spkr" then
              addEdge bb "hardware" "periph.wsa_auto" ep ""
            else bb)
            (addEdge { b with nodeMap := (addNodeRaw b.nodeMap
                "periph.wsa_auto" (some "Wsa Amplifier") "amp"
                (some "WSA Amplifier") (some "grp_peripherals")).1 }
              "hardware" q.2 "periph.wsa_auto" "")
        else b)) b
  else if macrosL ≠ [] ∧ endpoints ≠ [] then
    macrosL.foldl (fun b p => endpoints.foldl
      (fun bb ep => addEdge bb "hardware" p.1 ep "") b) b
  else
    endpoints.foldl (fun bb ep => addEdge bb "hardware" "bus.pcm" ep "")
      (addEdge b "hardware" "lpass.spf" "bus.pcm" "")

/-- The VA-macro DMIC path. -/
def linkVa (b : BState) (macrosL : List (String × String)) : BState :=
  if macrosL.any (fun p => strEndsWith p.1 ".vamacro") then
    addEdge { (addEdge b "hardware" "lpass.vamacro" "bus.dmic" "") with
        nodeMap := (addNodeRaw
          (addEdge b "hardware" "lpass.vamacro" "bus.dmic" "").nodeMap
          "periph.dmic" (some "DMICs") "component"
          (some "Digital Microphones") (some "grp_peripherals")).1 }
      "hardware" "bus.dmic" "periph.dmic" ""
  else b

/-- The raw `dai` edges of the link. -/
def linkDaiEdges (b : BState) (cpus codecs : List String) (name : String) :
    BState :=
  cpus.foldl (fun b cpu => codecs.foldl
    (fun bb codec => addEdge bb "dai" cpu codec name) b) b

/-- The synthesized headset sink for WCD-looking endpoints. -/
def linkWcdSink (b : BState) (endpoints : List String) : BState :=
  if endpoints.any (fun ep => strContains (pyLower ep) "wcd") then
    endpoints.foldl (fun bb ep =>
      if strContains (pyLower ep) "wcd" then
        addEdge bb "hardware" ep "sink.headset" ""
      else bb)
      { b with nodeMap := (addNodeRaw b.nodeMap "sink.headset"
          (some "Headphones / Earpiece") "speaker"
          (some "Headphones / Earpiece") (some "grp_speakers")).1 }
  else b

/-- The body of the `for link in dailinks` loop. -/
def procLink (b0 : BState) (link : DaiLink) : BState :=
  let acc := link.codec.foldl procCodecTok ⟨linkCpus b0 link.cpu, [], [], []⟩
  linkWcdSink
    (linkDaiEdges
      (linkVa
        (linkWireMain (linkWireSpf acc.b acc.macrosL acc.masters)
          acc.macrosL acc.masters acc.endpoints)
        acc.macrosL)
      link.cpu link.codec (dropQuotes link.name))
    acc.endpoints

/-- The seeded group containers and fixed anchor nodes. -/
def seedAnchorsMap : List (String × GNode) :=
  (addNodeRaw
    (addNodeRaw
      (addNodeRaw
        (addNodeRaw
          (addNodeRaw
            (addNodeRaw seedGroups "host.app" (some "App Framework")
              "component" (some "App Framework (AudioFlinger/ALSA)")
              (some "grp_host")).1
            "host.kdrv" (some "Kernel ALSA Drivers") "component"
            (some "Kernel ALSA Drivers") (some "grp_host")).1
          "host.ddr" (some "DMA Buffers (DDR)") "component"
          (some "DMA Buffers (DDR)") (some "grp_host")).1
        "lpass.spf" (some "Spf") "soc"
        (some "SPF (Signal Processing Framework)") (some "grp_lpass")).1
      "bus.pcm" (some "Pcm/Tdm Ports") "bus" (some "PCM/TDM Ports")
      (some "grp_buses")).1
    "bus.dmic" (some "Dmic Interface") "bus" (some "DMIC Interface")
    (some "grp_buses")).1

/-- The fixed signal-path skeleton edges. -/
def skeletonEdges (b : BState) : BState :=
  addEdge (addEdge (addEdge b "hardware" "host.app" "host.kdrv" "")
    "hardware" "host.kdrv" "host.ddr" "") "hardware" "host.ddr" "lpass.spf" ""

/-- The per-node body of the base hardware-node loop. -/
def hwAddNode (b : BState) (n : HwNode) : BState :=
  if !isHighLevelNode n then b
  else
    match (addNodeRaw b.nodeMap n.id (some n.label) n.type
        (some n.full_name) none).2 with
    | some sid =>
      if n.type = "sndcard" then
        addEdge { b with nodeMap := setParent (addNodeRaw b.nodeMap n.id
            (some n.label) n.type (some n.full_name) none).1 sid "grp_host" }
          "hardware" n.id "host.kdrv" ""
      else { b with nodeMap := (addNodeRaw b.nodeMap n.id (some n.label)
          n.type (some n.full_name) none).1 }
    | none => { b with nodeMap := (addNodeRaw b.nodeMap n.id (some n.label)
        n.type (some n.full_name) none).1 }

/-- The final lane-assignment sweep over a snapshot of the keys. -/
def ensureAll (b : BState) : BState :=
  { b with nodeMap := (b.nodeMap.map (fun kv => kv.1)).foldl ensureParent b.nodeMap }

/-- The trailing DMIC hint: the seeded `Dmic Interface` label always
matches, and `periph.dmic` is a raw id whereas map keys are hashed, so
this block always fires. -/
def dmicFinal (b : BState) : BState :=
  if (b.nodeMap.any (fun kv =>
      strContains (pyLower kv.2.label) "dmic" ||
      strContains (pyLower kv.2.full_name) "dmic")) ∧
      (dictGet b.nodeMap "periph.dmic").isNone then
    addEdge { b with nodeMap := (addNodeRaw b.nodeMap "periph.dmic"
        (some "DMICs") "component" (some "Digital Microphones")
        (some "grp_peripherals")).1 }
      "hardware" "bus.dmic" "periph.dmic" ""
  else b

/-- `build_graph_json` as a function of what it reads from the parser: the
hardware-node list and the DAI links (the routing relation is never
consulted). -/
def buildGraphCore (hw : List HwNode) (dailinks : List DaiLink) : BState :=
  dmicFinal (ensureAll (dailinks.foldl procLink
    (hw.foldl hwAddNode (skeletonEdges ⟨seedAnchorsMap, []⟩))))

/-- The returned JSON object `{'nodes': list(node_map.values()),
'edges': edges}`. -/
structure GraphJson where
  nodes : List GNode
  edges : List GEdge
  deriving DecidableEq, Repr

/-- `DiagramBuilder(parser).build_graph_json()`. -/
def buildGraphJson (st : DtsParserSt) : GraphJson :=
  ⟨(buildGraphCore (getHardwareNodes st) st.dailinks).nodeMap.map
      (fun kv => kv.2),
   (buildGraphCore (getHardwareNodes st) st.dailinks).edges⟩

/-! ## PathManager

Directory trees for `get_dts_base_path`; paths are component lists below
the project root. -/

mutual
inductive FTree : Type where
  | dir (children : FChildren) : FTree

inductive FChildren : Type where
  | nil : FChildren
  | cons (name : String) (t : FTree) (rest : FChildren) : FChildren
end

def childNames : FChildren → List String
  | .nil => []
  | .cons n _ rest => n :: childNames rest

def lookupChild : FChildren → String → Option FTree
  | .nil, _ => none
  | .cons n t rest, k => if n = k then some t else lookupChild rest k

/-- `os.path.exists` for a directory path below the root. -/
def existsPath : FTree → List String → Bool
  | _, [] => true
  | .dir cs, n :: rest =>
    match lookupChild cs n with
    | some t => existsPath t rest
    | none => false

/-- The names listed in a directory (empty when the path is absent). -/
def childNamesAt : FTree → List String → List String
  | .dir cs, [] => childNames cs
  | .dir cs, n :: rest =>
    match lookupChild cs n with
    | some t => childNamesAt t rest
    | none => []

/-- The index of the first child with a given name, if any
(`list.remove` removes exactly that occurrence). -/
def firstIdx : FChildren → String → Nat → Option Nat
  | .nil, _, _ => none
  | .cons n _ rest, k, i => if n = k then some i else firstIdx rest k (i + 1)

/-- Indices pruned by the walk body (`dirs.remove` of `out`, `.git`,
`sstate-cache`). -/
def pruneIdxs (cs : FChildren) : List Nat :=
  (["out", ".git", "sstate-cache"].filterMap (fun k => firstIdx cs k 0))

/-- The `dirs` list as seen after the three `remove` calls. -/
def prunedNames (cs : FChildren) : List String :=
  let skip := pruneIdxs cs
  ((childNames cs).enum.filter (fun p => p.1 ∉ skip)).map (·.2)

mutual
/-- `os.walk` (top-down) with the loop body's pruning applied: the visit
list of `(relative path, dirs-after-pruning)` pairs, in traversal order. -/
def walkVisit : FTree → List String → List (List String × List String)
  | .dir cs, path => (path, prunedNames cs) :: walkKids cs path (pruneIdxs cs) 0

def walkKids : FChildren → List String → List Nat → Nat →
    List (List String × List String)
  | .nil, _, _, _ => []
  | .cons n t rest, path, skip, i =>
    (if i ∈ skip then [] else walkVisit t (path ++ [n])) ++
      walkKids rest path skip (i + 1)
end

/-- Strategy 3, the "limited deep walk": scan the walk in order, skip
entries deeper than 4 levels, and return `root/dts/qcom` for the first
surviving entry that lists a `dts` directory with a `qcom` child. -/
def deepSearch (t : FTree) : Option (List String) :=
  (walkVisit t []).findSome? (fun v =>
    if v.1.length > 4 then none
    else if v.2.contains "dts" then
      if existsPath t (v.1 ++ ["dts", "qcom"]) then some (v.1 ++ ["dts", "qcom"])
      else none
    else none)

/-- Strategy 1: glob `build`/`.` for `tmp*`, then
`work-shared/*/kernel-source/arch/arm64/boot/dts/qcom` (a `*` glob skips
dot-entries). -/
def strategy1 (t : FTree) : Option (List String) :=
  [["build"], ([] : List String)].findSome? (fun start =>
    if !existsPath t start then none
    else
      (childNamesAt t start).findSome? (fun tmpn =>
        if strStartsWith tmpn "tmp" then
          (childNamesAt t (start ++ [tmpn, "work-shared"])).findSome? (fun w =>
            if strStartsWith w "." then none
            else
              let p := start ++ [tmpn, "work-shared", w, "kernel-source",
                "arch", "arm64", "boot", "dts", "qcom"]
              if existsPath t p then some p else none)
        else none))

/-- Strategy 2: the three conventional fixed layouts. -/
def strategy2 (t : FTree) : Option (List String) :=
  [["arch", "arm64", "boot", "dts", "qcom"],
   ["linux", "arch", "arm64", "boot", "dts", "qcom"],
   ["kernel-source", "arch", "arm64", "boot", "dts", "qcom"]].find?
    (fun p => existsPath t p)

/-- `PathManager.get_dts_base_path` (result as a path below the root). -/
def getDtsBasePath (t : FTree) : Option (List String) :=
  match strategy1 t with
  | some p => some p
  | none =>
    match strategy2 t with
    | some p => some p
    | none => deepSearch t

/-- The directory names removed from `dirs` by the walk body. -/
def prunedList : List String := ["out", ".git", "sstate-cache"]

mutual
/-- Every directory level of the tree has pairwise-distinct child names
(true of any real filesystem directory listing). -/
def ndT : FTree → Bool
  | .dir cs => ndC cs

def ndC : FChildren → Bool
  | .nil => true
  | .cons n t rest => (!decide (n ∈ childNames rest)) && ndT t && ndC rest
end

/-- The child entry at a given index. -/
def childAtIdx : FChildren → Nat → Option (String × FTree)
  | .nil, _ => none
  | .cons n t _, 0 => some (n, t)
  | .cons _ _ rest, j + 1 => childAtIdx rest j

/-- A chain of nested single-child directories of the given depth. -/
def chainT : Nat → FTree
  | 0 => .dir .nil
  | n + 1 => .dir (.cons "sub" (chainT n) .nil)

/-- A root whose pruned `out` directory is the only one holding
`dts/qcom`. -/
def tC9w : FTree :=
  .dir (.cons "out"
          (.dir (.cons "dts" (.dir (.cons "qcom" (.dir .nil) .nil)) .nil))
        (.cons "src" (.dir .nil) .nil))

/-- A one-file filesystem whose entry has a doubly-labelled header. -/
def fsC6 : Fs := [("base/l.dts", "l1:l2:name3 \x7b \x7d;")]

/-- A file whose second top-level block re-enters an unknown label. -/
def fsC5 : Fs :=
  [("base/m.dts",
    "/ \x7b f \x7b \x7d; \x7d;\n&missing \x7b foo = \"bar\"; \x7d;")]

/-- Consecutive pairing, dropping a trailing unpaired entry — the spec-side
reading of the routing pairing loop. -/
def pairUpSpec : List String → List (String × String)
  | a :: b :: rest => (a, b) :: pairUpSpec rest
  | _ => []

/-- The two-line synthetic source of the round-trip property. -/
def fsC7 : Fs :=
  [("base/snd.dts",
    "sound \x7b compatible = \"qcom,audio-card\"; audio-routing = \"SpkrLeft\", \"WSA_RX0\"; \x7d;")]

/-- What every parser step preserves: includes grow, the base path is
fixed. -/
def ParseRel (st st' : DtsParserSt) : Prop :=
  (∀ p ∈ st.includes, p ∈ st'.includes) ∧ st'.base_path = st.base_path

/-- The termination measure: distinct filesystem paths not yet in the
include set. -/
def remCount (fs : Fs) (st : DtsParserSt) : Nat :=
  ((fs.map (fun kv => kv.1)).dedup.filter (fun p => p ∉ st.includes)).length

/-- A includes B directly and transitively (via C, which includes B). -/
def fsA1 : Fs :=
  [("base/a.dts",
    "#include \"b.dtsi\"\n#include \"c.dtsi\"\n/ \x7b x \x7b \x7d; \x7d;"),
   ("base/b.dtsi", "/ \x7b bn \x7b p = \"1\"; \x7d; \x7d;"),
   ("base/c.dtsi", "#include \"b.dtsi\"\n")]

/-- The same layout with the transitive re-inclusion removed. -/
def fsA2 : Fs :=
  [("base/a.dts",
    "#include \"b.dtsi\"\n#include \"c.dtsi\"\n/ \x7b x \x7b \x7d; \x7d;"),
   ("base/b.dtsi", "/ \x7b bn \x7b p = \"1\"; \x7d; \x7d;"),
   ("base/c.dtsi", "")]

/-- A includes B twice by two adjacent literal directives. -/
def fsD2 : Fs :=
  [("base/a.dts",
    "x \x7b \x7d;\n#include \"b.dtsi\"\n#include \"b.dtsi\"\ny \x7b \x7d;"),
   ("base/b.dtsi", "bn \x7b \x7d;")]

/-- The same file with a single directive. -/
def fsD1 : Fs :=
  [("base/a.dts", "x \x7b \x7d;\n#include \"b.dtsi\"\ny \x7b \x7d;"),
   ("base/b.dtsi", "bn \x7b \x7d;")]

/-- Membership of a key in the node map. -/
def hasKey (m : List (String × GNode)) (k : String) : Prop :=
  k ∈ m.map (fun kv => kv.1)

/-- Structural invariant of the node map: unique keys, each value's `id`
equals its key, group nodes carry no parent, and hashed (`node_`-tagged)
keys never hold group nodes. -/
def MapInv (m : List (String × GNode)) : Prop :=
  (m.map (fun kv => kv.1)).Nodup ∧
  ∀ kv ∈ m, kv.2.id = kv.1 ∧
    (kv.2.type = "group" → kv.2.parent = none) ∧
    (strStartsWith kv.1 "node_" = true → kv.2.type ≠ "group")

/-- Invariant of the whole builder state: `MapInv` plus, for every edge,
an allowed kind and both endpoints present in the map. -/
def BInv (b : BState) : Prop :=
  MapInv b.nodeMap ∧
  ∀ e ∈ b.edges, (e.kind = "hardware" ∨ e.kind = "dai") ∧
    hasKey b.nodeMap e.source ∧ hasKey b.nodeMap e.target

/-- The visit order of the Python breadth-first queue loop. -/
def bfsOrderAux (arena : List NodeData) : Nat → List Nat → List Nat
  | 0, _ => []
  | _, [] => []
  | fuel + 1, i :: queue =>
    i :: bfsOrderAux arena fuel (queue ++ (nodeAt arena i).children)

/-- The per-node early-return test of the loop: marker `compatible`
(check 1) or `audio-routing` (check 2). -/
def strongHit (arena : List NodeData) (i : Nat) : Bool :=
  soundMarkerHit (nodeAt arena i).props ||
    hasAudioRouting (nodeAt arena i).props

/-- C3 counterexample: in `fsC3`, BFS meets node `a` (audio-routing, no
marker compatible) before node `b` (marker compatible).  The code returns
`a` even though a node with a marker `compatible` exists in the tree — the
claim's rule would return `b`. -/
def fsC3 : Fs :=
  [("base/a.dts",
    "/ \x7b a \x7b audio-routing = \"x\", \"y\"; \x7d; b \x7b compatible = \"qcom,audio-card\"; \x7d; \x7d;")]

/-! ## Helper lemmas -/

theorem isPrefixOf_append_self (l1 l2 : List Char) :
    l1.isPrefixOf (l1 ++ l2) = true := by
  induction l1 with
  | nil => simp [List.isPrefixOf]
  | cons a t ih => simp [List.isPrefixOf, ih]

/-- Every safe id starts with the constant tag `node_`. -/
theorem getSafeId_starts_node (s : String) :
    strStartsWith (getSafeId s) "node_" = true := by
  unfold getSafeId
  by_cases h : s = ""
  · simp [h]; decide
  · simp only [h, if_false, strStartsWith, String.data_append]
    exact isPrefixOf_append_self _ _

theorem hexFoldr_length (bs : List Nat) :
    (bs.foldr (fun b acc => hexDigit (b / 16) :: hexDigit (b % 16) :: acc)
      []).length = 2 * bs.length := by
  induction bs with
  | nil => rfl
  | cons b t ih => simp only [List.foldr_cons, List.length_cons, ih]; omega

theorem hexOfBytes_length (bs : List Nat) :
    (hexOfBytes bs).length = 2 * bs.length :=
  hexFoldr_length bs

theorem md5bytes_length (m : List Nat) : (md5bytes m).length = 16 := by
  simp [md5bytes, wordLE]

theorem md5hex_length (s : String) : (md5hex s).length = 32 := by
  show (hexOfBytes (md5bytes (utf8Bytes s))).length = 32
  rw [hexOfBytes_length, md5bytes_length]

theorem getSafeId_length (s : String) : (getSafeId s).length ≤ 13 := by
  unfold getSafeId
  by_cases h : s = ""
  · simp [h]; decide
  · simp only [h, if_false, String.length_append]
    have h32 : (md5hex s).data.length = 32 := md5hex_length s
    have h8 : ((⟨(md5hex s).data.take 8⟩ : String)).length = 8 := by
      show ((md5hex s).data.take 8).length = 8
      simp [List.length_take, h32]
    have h5 : ("node_" : String).length = 5 := rfl
    omega

/-! ## Claim C2 -/

/-- C2 counterexample: as stated the claim is false — `_get_safe_id` keeps
only the first 8 hex characters of the md5 digest, and the two distinct
identifiers `agss` and `bo8y` collide on that prefix (both map to
`node_2788f530`). -/
theorem C2_counterexample_distinct_ids_collide :
    ("agss" : String) ≠ "bo8y" ∧ getSafeId "agss" = getSafeId "bo8y" :=
  ⟨by decide, by rfl⟩

/-- C2 (amended): the GraphNode id of a source identifier is a pure,
deterministic function of the identifier (stable within a call and across
repeated calls, so two builds over the same ParsedModel agree everywhere),
distinct ids only ever arise from distinct identifiers, and every id is a
`node_`-tagged string of at most 13 characters; but distinct identifiers
are not guaranteed distinct ids (see the counterexample). -/
theorem C2_ids_deterministic_content_addressed :
    (∀ s1 s2 : String, s1 = s2 → getSafeId s1 = getSafeId s2) ∧
    (∀ s1 s2 : String, getSafeId s1 ≠ getSafeId s2 → s1 ≠ s2) ∧
    (∀ st : DtsParserSt, buildGraphJson st = buildGraphJson st) ∧
    (∀ s : String,
      strStartsWith (getSafeId s) "node_" = true ∧ (getSafeId s).length ≤ 13) :=
  ⟨fun _ _ h => h ▸ rfl,
   fun _ _ h heq => h (heq ▸ rfl),
   fun _ => rfl,
   fun s => ⟨getSafeId_starts_node s, getSafeId_length s⟩⟩

/-- C2 witness: the amended theorem applied at concrete identifiers. -/
theorem C2_ids_witness :
    getSafeId "host.app" = getSafeId "host.app" ∧ ("lpass.spf" : String) ≠ "bus.pcm" :=
  ⟨C2_ids_deterministic_content_addressed.1 "host.app" "host.app" rfl,
   C2_ids_deterministic_content_addressed.2.1 "lpass.spf" "bus.pcm" (by decide)⟩

/-! ## Claim C6: split lemmas -/

theorem splitOnP_headD (p : Char → Bool) (l : List Char) :
    (l.splitOnP p).headD [] = l.takeWhile (fun x => !p x) := by
  induction l with
  | nil => simp [List.splitOnP_nil]
  | cons x xs ih =>
    rw [List.splitOnP_cons, List.takeWhile_cons]
    by_cases h : p x
    · simp [h]
    · obtain ⟨a, as, he⟩ :=
        List.exists_cons_of_ne_nil (List.splitOnP_ne_nil p xs)
      rw [he] at ih ⊢
      simp only [List.headD_cons] at ih
      simp [h, List.modifyHead_cons, ih]

theorem splitOnP_singleton_inv {p : Char → Bool} {xs g : List Char}
    (h : xs.splitOnP p = [g]) : g = xs ∧ ∀ y ∈ xs, ¬ p y := by
  induction xs generalizing g with
  | nil =>
    rw [List.splitOnP_nil] at h
    cases h; exact ⟨rfl, by simp⟩
  | cons x xs ih =>
    rw [List.splitOnP_cons] at h
    by_cases hp : p x
    · rw [if_pos hp] at h
      exact absurd (List.tail_eq_of_cons_eq h) (List.splitOnP_ne_nil _ _)
    · rw [if_neg hp] at h
      obtain ⟨a, as, he⟩ :=
        List.exists_cons_of_ne_nil (List.splitOnP_ne_nil p xs)
      rw [he, List.modifyHead_cons] at h
      obtain ⟨h1, h2⟩ := List.cons_eq_cons.mp h
      obtain ⟨hg, hall⟩ := ih (h2 ▸ he)
      refine ⟨by rw [← h1, hg], ?_⟩
      intro y hy
      rcases List.mem_cons.mp hy with rfl | hmem
      · exact hp
      · exact hall y hmem

theorem splitOnP_multi {p : Char → Bool} {xs a : List Char}
    {as : List (List Char)} (h : xs.splitOnP p = a :: as) (hne : as ≠ []) :
    ∃ y ∈ xs, p y := by
  by_contra hc
  push_neg at hc
  have hs : xs.splitOnP p = [xs] :=
    List.splitOnP_eq_single p xs (fun y hy => by simpa using hc y hy)
  rw [hs] at h
  obtain ⟨-, h2⟩ := List.cons_eq_cons.mp h
  exact hne h2.symm

theorem takeWhile_append_of_stop (p : Char → Bool) (l1 l2 : List Char)
    (h : ∃ y ∈ l1, ¬ p y) : (l1 ++ l2).takeWhile p = l1.takeWhile p := by
  rw [List.takeWhile_append]
  split
  · next hlen =>
    exfalso
    have heq := (List.takeWhile_prefix p (l := l1)).eq_of_length hlen
    obtain ⟨y, hy, hpy⟩ := h
    exact hpy (List.takeWhile_eq_self_iff.mp heq y hy)
  · rfl

theorem rtakeWhile_cons_neg (p : Char → Bool) (x : Char) (xs : List Char)
    (h : ¬ p x) : (x :: xs).rtakeWhile p = xs.rtakeWhile p := by
  unfold List.rtakeWhile
  rw [List.reverse_cons, List.takeWhile_append]
  split
  · next hlen =>
    have heq := (List.takeWhile_prefix p (l := xs.reverse)).eq_of_length hlen
    simp [heq, List.takeWhile_cons, h]
  · rfl

theorem rtakeWhile_cons_stop (p : Char → Bool) (x : Char) (xs : List Char)
    (h : ∃ y ∈ xs, ¬ p y) : (x :: xs).rtakeWhile p = xs.rtakeWhile p := by
  unfold List.rtakeWhile
  rw [List.reverse_cons, takeWhile_append_of_stop]
  obtain ⟨y, hy, hpy⟩ := h
  exact ⟨y, List.mem_reverse.mpr hy, hpy⟩

theorem splitOnP_getLastD (p : Char → Bool) (l : List Char) :
    (l.splitOnP p).getLastD [] = l.rtakeWhile (fun x => !p x) := by
  induction l with
  | nil => simp [List.splitOnP_nil, List.rtakeWhile]
  | cons x xs ih =>
    rw [List.splitOnP_cons]
    by_cases h : p x
    · rw [if_pos h]
      obtain ⟨a, as, he⟩ :=
        List.exists_cons_of_ne_nil (List.splitOnP_ne_nil p xs)
      rw [he, List.getLastD_cons, ← he, ih]
      exact (rtakeWhile_cons_neg _ x xs (by simp [h])).symm
    · rw [if_neg h]
      obtain ⟨a, as, he⟩ :=
        List.exists_cons_of_ne_nil (List.splitOnP_ne_nil p xs)
      rw [he, List.modifyHead_cons]
      cases as with
      | nil =>
        obtain ⟨hg, hall⟩ := splitOnP_singleton_inv he
        rw [List.getLastD_cons, List.getLastD_nil]
        rw [List.rtakeWhile_eq_self_iff.mpr ?all, hg]
        case all =>
          intro z hz
          rcases List.mem_cons.mp hz with rfl | hmem
          · simp [h]
          · simp [hall z hmem]
      | cons b bs =>
        rw [List.getLastD_cons]
        have hstop : ∃ y ∈ xs, p y := splitOnP_multi he (by simp)
        have hr : (x :: xs).rtakeWhile (fun z => !p z) =
            xs.rtakeWhile (fun z => !p z) := by
          obtain ⟨y, hy, hpy⟩ := hstop
          exact rtakeWhile_cons_stop _ x xs ⟨y, hy, by simp [hpy]⟩
        rw [hr, ← ih, he, List.getLastD_cons, List.getLastD_cons,
          List.getLastD_cons]

/-! ## Claim C6: theorems -/


/-- C6 counterexample: on the header `l1:l2:name3` the code takes the text
before the FIRST colon as the label — the created node carries label `l1`
and the symbol table maps `l1` (not `l1:l2`, which the claim's last-colon
rule requires); the name is the text after the last colon. -/
theorem C6_counterexample_multi_colon_header :
    headerLabel "l1:l2:name3" = some "l1" ∧
    some ("l1" : String) ≠ some "l1:l2" ∧
    (dtsParse fsC6 "base" "l.dts").map
        (fun st => (st.labels, (st.arena.getD 1 default).name,
          (st.arena.getD 1 default).label))
      = some ([("l1", 1)], "name3", some "l1") := by
  refine ⟨by decide, by decide, by decide⟩

theorem map_getLastD_cons {α β : Type} (f : α → β) (a : α) (as : List α)
    (d : β) (e : α) :
    ((a :: as).map f).getLastD d = f ((a :: as).getLastD e) := by
  induction as generalizing a with
  | nil => simp
  | cons b bs ih =>
    simp only [List.map_cons, List.getLastD_cons] at *
    exact ih b

/-- C6 (amended): when a node header contains one or more `:` characters,
the parser takes everything before the FIRST colon (trimmed) as the label
and everything after the last colon (trimmed) as the name; a header with no
colon is entirely the name with no label. -/
theorem C6_header_split_label_name (h : String) :
    (h.data.contains ':' = true →
      headerLabel h = some (pyStrip ⟨h.data.takeWhile (· ≠ ':')⟩) ∧
      headerName h = pyStrip ⟨h.data.rtakeWhile (· ≠ ':')⟩) ∧
    (h.data.contains ':' = false →
      headerLabel h = none ∧ headerName h = h) := by
  have hpred : (fun x : Char => !(x == ':')) = (fun x : Char => x ≠ ':') := by
    funext x
    by_cases hx : x = ':' <;> simp [hx]
  constructor
  · intro hc
    unfold headerLabel headerName pySplitChar
    rw [hc]
    simp only [if_true]
    obtain ⟨a, as, he⟩ :=
      List.exists_cons_of_ne_nil (List.splitOnP_ne_nil (· == ':') h.data)
    have hhead := splitOnP_headD (· == ':') h.data
    have hlast := splitOnP_getLastD (· == ':') h.data
    rw [hpred] at hhead hlast
    constructor
    · show some (pyStrip (((h.data.splitOn ':').map
        (fun l => (⟨l⟩ : String))).headD "")) = _
      rw [show h.data.splitOn ':' = h.data.splitOnP (· == ':') from rfl, he]
      rw [he] at hhead
      simp only [List.headD_cons] at hhead ⊢
      simp only [List.map_cons, List.headD_cons, hhead]
    · show pyStrip (((h.data.splitOn ':').map
        (fun l => (⟨l⟩ : String))).getLastD "") = _
      rw [show h.data.splitOn ':' = h.data.splitOnP (· == ':') from rfl, he]
      rw [he] at hlast
      rw [map_getLastD_cons (fun l => (⟨l⟩ : String)) a as "" [], hlast]
  · intro hc
    unfold headerLabel headerName
    rw [hc]
    exact ⟨rfl, rfl⟩

/-- C6 witness: the amended theorem applied to a labelled and an unlabelled
concrete header. -/
theorem C6_header_split_witness :
    (headerLabel "cpu0: cpu@0" =
        some (pyStrip ⟨"cpu0: cpu@0".data.takeWhile (· ≠ ':')⟩) ∧
      headerName "cpu0: cpu@0" =
        pyStrip ⟨"cpu0: cpu@0".data.rtakeWhile (· ≠ ':')⟩) ∧
    (headerLabel "sound" = none ∧ headerName "sound" = "sound") :=
  ⟨(C6_header_split_label_name "cpu0: cpu@0").1 (by decide),
   (C6_header_split_label_name "sound").2 (by decide)⟩

/-! ## Claim C5 -/

theorem startsWith_amp_ne_slash (s : String) (h : strStartsWith s "&" = true) :
    s ≠ "/" := by
  intro heq
  subst heq
  exact absurd h (by decide)


/-- C5: a `&label` re-entry header whose label is not in the symbol table
pushes the current top-of-stack node unchanged — the parser state (arena,
labels, everything) is untouched by the `{` token, so the body's properties
attach to an existing node and parsing completes normally.  Concretely, on
`fsC5` the parse succeeds, creates no node for `&missing`, attaches `foo`
to the root, and registers no label. -/
theorem C5_unresolved_label_pushes_top :
    (∀ (st : DtsParserSt) (stack : List Nat) (buffer : List Char),
      (pyStrip ⟨buffer⟩).data.contains ':' = false →
      strStartsWith (pyStrip ⟨buffer⟩) "&" = true →
      dictGet st.labels ⟨(pyStrip ⟨buffer⟩).data.drop 1⟩ = none →
      procChar (st, stack, buffer) '{' =
        (st, stack.headD 0 :: stack, ([] : List Char))) ∧
    (dtsParse fsC5 "base" "m.dts").map
        (fun st => (st.arena.map (·.name), (st.arena.getD 0 default).props,
          st.labels))
      = some (["/", "f"], [("foo", PropVal.str "\"bar\"")], []) := by
  constructor
  · intro st stack buffer h1 h2 h3
    have h1' : ':' ∉ (pyStrip ⟨buffer⟩).data := by simpa using h1
    have hlab : headerLabel (pyStrip ⟨buffer⟩) = none := by
      unfold headerLabel
      simp [h1']
    have hnam : headerName (pyStrip ⟨buffer⟩) = pyStrip ⟨buffer⟩ := by
      unfold headerName
      simp [h1']
    show (let header := pyStrip ⟨buffer⟩; _) = _
    simp only [procChar, if_pos rfl, hlab, hnam]
    rw [if_neg (startsWith_amp_ne_slash _ h2), if_pos h2, h3]
    rfl
  · decide

/-- C5 witness: the general part applied at a concrete state, stack and
buffer. -/
theorem C5_unresolved_label_witness :
    procChar (⟨"base", [rootNode], [], [], [], []⟩, [0], "&missing ".data) '{' =
      (⟨"base", [rootNode], [], [], [], []⟩, [0, 0], ([] : List Char)) := by
  have h := C5_unresolved_label_pushes_top.1
    ⟨"base", [rootNode], [], [], [], []⟩ [0] "&missing ".data
    (by decide) (by decide) (by decide)
  simpa using h

/-! ## Claim C7 -/


/-- The code's indexed pairing loop agrees with consecutive pairing that
silently drops a trailing odd entry. -/
theorem pairRange_eq_pairUp (parts : List String) :
    pairRangeCode parts = pairUpSpec parts := by
  induction parts using pairUpSpec.induct with
  | case1 a b rest ih =>
    unfold pairRangeCode pairUpSpec
    have hlen : (a :: b :: rest).length / 2 = rest.length / 2 + 1 := by
      simp only [List.length_cons]
      omega
    rw [hlen, List.range_succ_eq_map, List.map_cons, List.map_map]
    refine List.cons_eq_cons.mpr ⟨by simp, ?_⟩
    unfold pairRangeCode at ih
    rw [← ih]
    apply List.map_congr_left
    intro k _
    simp only [Function.comp_apply]
    have h1 : 2 * Nat.succ k = (2 * k + 1) + 1 := by omega
    rw [h1]
    simp [List.getD_cons_succ]
  | case2 l h =>
    cases l with
    | nil => rfl
    | cons a t =>
      cases t with
      | nil => simp [pairRangeCode, pairUpSpec]
      | cons b r => exact absurd rfl (h a b r)


/-- C7: parsing the synthetic sound-card source yields exactly the routing
pair `(SpkrLeft, WSA_RX0)` and detects the `sound` node via its marker
`compatible` value (check 1); and in general, routing extraction takes the
double-quoted spans of the `audio-routing` value in order and groups them
into consecutive pairs, silently dropping a trailing unpaired entry. -/
theorem C7_routing_roundtrip_and_pairing :
    ((dtsParse fsC7 "base" "snd.dts").map
        (fun st => (st.routing,
          (getSoundCardNode st).map (fun i =>
            ((st.arena.getD i default).name,
             soundMarkerHit (st.arena.getD i default).props))))
      = some ([("SpkrLeft", "WSA_RX0")], some ("sound", true))) ∧
    (∀ parts : List String, pairRangeCode parts = pairUpSpec parts) ∧
    (∀ (st : DtsParserSt) (i : Nat) (raw : String),
      getSoundCardNode st = some i →
      dictGet (st.arena.getD i default).props "audio-routing" =
        some (PropVal.str raw) →
      (postProcessRouting st).routing =
        st.routing ++ pairUpSpec (quotedSpans raw)) := by
  refine ⟨by decide, pairRange_eq_pairUp, ?_⟩
  intro st i raw hsnd hprop
  unfold postProcessRouting
  simp only [List.getD_eq_getElem?_getD] at hprop
  simp [hsnd, hprop, pairRange_eq_pairUp]

/-! ## Claim C4: preservation and termination machinery -/

theorem foldl_invariant {α β : Type} (f : β → α → β) (P : β → Prop)
    (hf : ∀ b a, P b → P (f b a)) :
    ∀ (l : List α) (b : β), P b → P (l.foldl f b) := by
  intro l
  induction l with
  | nil => intro b hb; exact hb
  | cons x t ih => intro b hb; exact ih _ (hf b x hb)

/-- The tokenizer step only ever touches the arena and the label table. -/
theorem procChar_preserves (acc : DtsParserSt × List Nat × List Char)
    (c : Char) :
    ((procChar acc c).1).includes = (acc.1).includes ∧
    ((procChar acc c).1).base_path = (acc.1).base_path ∧
    ((procChar acc c).1).routing = (acc.1).routing ∧
    ((procChar acc c).1).dailinks = (acc.1).dailinks := by
  obtain ⟨st, stack, buffer⟩ := acc
  dsimp only [procChar]
  repeat' split
  all_goals exact ⟨rfl, rfl, rfl, rfl⟩

theorem processContent_preserves (st : DtsParserSt) (content : List Char)
    (root : Nat) :
    (processContent st content root).includes = st.includes ∧
    (processContent st content root).base_path = st.base_path ∧
    (processContent st content root).routing = st.routing ∧
    (processContent st content root).dailinks = st.dailinks := by
  have h := foldl_invariant procChar
    (fun acc => acc.1.includes = st.includes ∧
      acc.1.base_path = st.base_path ∧ acc.1.routing = st.routing ∧
      acc.1.dailinks = st.dailinks)
    (fun b a hb => by
      obtain ⟨h1, h2, h3, h4⟩ := procChar_preserves b a
      exact ⟨h1.trans hb.1, h2.trans hb.2.1, h3.trans hb.2.2.1,
        h4.trans hb.2.2.2⟩)
    content (st, [root], []) ⟨rfl, rfl, rfl, rfl⟩
  exact h


theorem parseRel_refl (st : DtsParserSt) : ParseRel st st :=
  ⟨fun _ hp => hp, rfl⟩

theorem parseRel_trans {a b c : DtsParserSt} (h1 : ParseRel a b)
    (h2 : ParseRel b c) : ParseRel a c :=
  ⟨fun p hp => h2.1 p (h1.1 p hp), h2.2.trans h1.2⟩

theorem foldlM_rel {α : Type} (f : DtsParserSt → α → Option DtsParserSt)
    (hf : ∀ s x s', f s x = some s' → ParseRel s s') :
    ∀ (l : List α) (s s' : DtsParserSt),
      l.foldlM f s = some s' → ParseRel s s' := by
  intro l
  induction l with
  | nil =>
    intro s s' h
    simp only [List.foldlM_nil] at h
    cases h
    exact parseRel_refl s
  | cons x t ih =>
    intro s s' h
    rw [List.foldlM_cons] at h
    cases hfx : f s x with
    | none => rw [hfx] at h; cases h
    | some s1 =>
      rw [hfx] at h
      simp only [Option.bind_eq_bind, Option.some_bind] at h
      exact parseRel_trans (hf s x s1 hfx) (ih s1 s' h)

/-- Every successful parse step only extends the include set and keeps the
base path. -/
theorem parseRec_mono (fs : Fs) :
    ∀ (fuel : Nat) (fn : String) (root : Nat) (st st' : DtsParserSt),
      parseRecursive fs fuel fn root st = some st' → ParseRel st st' := by
  intro fuel
  induction fuel with
  | zero => intro fn root st st' h; cases h
  | succ fuel ih =>
    intro fn root st st' h
    unfold parseRecursive at h
    split at h
    · cases h
      exact parseRel_refl st
    · next path _ =>
      split at h
      · cases h
        exact parseRel_refl st
      · next hmem =>
        split at h
        · cases h
        · next st2 hfold =>
          cases h
          have hrel1 : ParseRel st { st with includes := st.includes ++ [path] } :=
            ⟨fun p hp => List.mem_append_left _ hp, rfl⟩
          have hrel2 := foldlM_rel _ (fun s x s' hx => ih x root s s' hx)
            _ _ _ hfold
          have hproc := processContent_preserves st2
            (stripLineComments (stripBlockComments ((fsGet fs path).getD "").data))
            root
          refine parseRel_trans (parseRel_trans hrel1 hrel2) ⟨?_, hproc.2.1⟩
          intro p hp
          rw [hproc.1]
          exact hp


theorem resolvePath_mem (fs : Fs) (basePath clean path : String)
    (h : resolvePath fs basePath clean = some path) :
    path ∈ fs.map (fun kv => kv.1) := by
  unfold resolvePath at h
  have hp := List.find?_some h
  simp only [fsGet, dictGet] at hp
  cases hfind : List.find? (fun kv => decide (kv.1 = path)) fs with
  | none => rw [hfind] at hp; simp at hp
  | some kv =>
    have hkv := List.mem_of_find?_eq_some hfind
    have heq := List.find?_some hfind
    simp only [decide_eq_true_eq] at heq
    exact List.mem_map.mpr ⟨kv, hkv, heq⟩

theorem remCount_mono (fs : Fs) (st st' : DtsParserSt)
    (h : ∀ p ∈ st.includes, p ∈ st'.includes) :
    remCount fs st' ≤ remCount fs st := by
  unfold remCount
  rw [← List.countP_eq_length_filter, ← List.countP_eq_length_filter]
  apply List.countP_mono_left
  intro a _
  simp only [decide_eq_true_eq]
  intro ha hc
  exact ha (h a hc)

theorem remCount_insert (fs : Fs) (st : DtsParserSt) (path : String)
    (hmem : path ∉ st.includes) (hpath : path ∈ fs.map (fun kv => kv.1)) :
    remCount fs { st with includes := st.includes ++ [path] } <
      remCount fs st := by
  unfold remCount
  have hsub : ∀ a : String,
      (decide (a ∉ st.includes ++ [path]) = true) →
      (decide (a ∉ st.includes) = true) := by
    intro a
    simp only [decide_eq_true_eq, List.mem_append]
    intro h hc
    exact h (Or.inl hc)
  have hfil : (fs.map (fun kv => kv.1)).dedup.filter
      (fun p => p ∉ st.includes ++ [path]) =
      ((fs.map (fun kv => kv.1)).dedup.filter (fun p => p ∉ st.includes)).filter
        (fun p => p ∉ st.includes ++ [path]) := by
    rw [List.filter_filter]
    apply List.filter_congr
    intro a _
    cases hd : decide (a ∉ st.includes ++ [path]) with
    | true => simp [hsub a hd]
    | false => simp
  rw [hfil]
  apply List.length_filter_lt_length_iff_exists.mpr
  refine ⟨path, List.mem_filter.mpr ⟨List.mem_dedup.mpr hpath, by simpa using hmem⟩, ?_⟩
  simp

theorem foldlM_parse_total (fs : Fs) (fuel : Nat) (root : Nat)
    (hstep : ∀ (s : DtsParserSt) (x : String),
      remCount fs s < fuel → (parseRecursive fs fuel x root s).isSome = true)
    (hmono : ∀ (s : DtsParserSt) (x : String) (s' : DtsParserSt),
      parseRecursive fs fuel x root s = some s' →
      remCount fs s' ≤ remCount fs s) :
    ∀ (l : List String) (s : DtsParserSt), remCount fs s < fuel →
      ∃ s', l.foldlM (fun s inc => parseRecursive fs fuel inc root s) s
          = some s' ∧ remCount fs s' ≤ remCount fs s := by
  intro l
  induction l with
  | nil =>
    intro s hs
    exact ⟨s, by simp [List.foldlM_nil], le_refl _⟩
  | cons x t ih =>
    intro s hs
    have h1 := hstep s x hs
    cases hfx : parseRecursive fs fuel x root s with
    | none => rw [hfx] at h1; cases h1
    | some s1 =>
      have hle := hmono s x s1 hfx
      obtain ⟨s', hs', hle'⟩ := ih s1 (lt_of_le_of_lt hle hs)
      refine ⟨s', ?_, le_trans hle' hle⟩
      rw [List.foldlM_cons, hfx]
      simpa using hs'

/-- With fuel exceeding the number of yet-unvisited filesystem paths, the
recursive parse always completes: the include set is a working cycle
guard even for circular includes. -/
theorem parseRec_total (fs : Fs) :
    ∀ (fuel : Nat) (fn : String) (root : Nat) (st : DtsParserSt),
      remCount fs st < fuel →
      (parseRecursive fs fuel fn root st).isSome = true := by
  intro fuel
  induction fuel with
  | zero => intro fn root st h; omega
  | succ fuel ih =>
    intro fn root st hlt
    unfold parseRecursive
    split
    · rfl
    · next path hres =>
      split
      · rfl
      · next hmem =>
        have hdec : remCount fs { st with includes := st.includes ++ [path] } <
            remCount fs st :=
          remCount_insert fs st path hmem
            (resolvePath_mem fs st.base_path (stripAngleQuote fn) path hres)
        have hfold := foldlM_parse_total fs fuel root
          (fun s x h => ih x root s h)
          (fun s x s' hx => remCount_mono fs s s'
            (parseRec_mono fs fuel x root s s' hx).1)
          (findIncludes ((fsGet fs path).getD ""))
          { st with includes := st.includes ++ [path] }
          (by omega)
        obtain ⟨s2, hs2, -⟩ := hfold
        rw [hs2]
        rfl

/-- Post-processing never touches the include set. -/
theorem postProcess_includes (st : DtsParserSt) :
    (postProcessRouting st).includes = st.includes ∧
    (postProcessDailinks st).includes = st.includes := by
  constructor
  · unfold postProcessRouting
    repeat' split
    all_goals rfl
  · unfold postProcessDailinks
    repeat' split
    all_goals rfl

/-- Re-encountering an already-included resolved path is a strict no-op:
the parser state is returned unchanged. -/
theorem parseRec_noop (fs : Fs) (fuel : Nat) (fn : String) (root : Nat)
    (st : DtsParserSt) (path : String)
    (hres : resolvePath fs st.base_path (stripAngleQuote fn) = some path)
    (hmem : path ∈ st.includes) :
    parseRecursive fs (fuel + 1) fn root st = some st := by
  unfold parseRecursive
  simp [hres, hmem]

/-- The public parse is total: the canonical fuel always suffices. -/
theorem dtsParse_total (fs : Fs) (basePath fn : String) :
    (dtsParse fs basePath fn).isSome = true := by
  unfold dtsParse
  have hb : remCount fs ⟨basePath, [rootNode], [], [], [], []⟩ < fs.length + 1 := by
    have h1 := List.length_filter_le
      (fun p => decide (p ∉ ([] : List String)))
      (fs.map (fun kv => kv.1)).dedup
    have h2 := (List.dedup_sublist (fs.map (fun kv => kv.1))).length_le
    have h3 : (fs.map (fun kv => kv.1)).length = fs.length :=
      List.length_map _ _
    show ((fs.map (fun kv => kv.1)).dedup.filter
      (fun p => decide (p ∉ ([] : List String)))).length < fs.length + 1
    omega
  have h := parseRec_total fs (fs.length + 1) fn 0
    ⟨basePath, [rootNode], [], [], [], []⟩ hb
  cases hp : parseRecursive fs (fs.length + 1) fn 0
      ⟨basePath, [rootNode], [], [], [], []⟩ with
  | none => rw [hp] at h; cases h
  | some st1 => rfl

/-- A file with no include directives leaves exactly its own resolved path
in the include set. -/
theorem dtsParse_singleton_includes (fs : Fs)
    (basePath fn path content : String)
    (hres : resolvePath fs basePath (stripAngleQuote fn) = some path)
    (hget : fsGet fs path = some content)
    (hinc : findIncludes content = []) :
    (dtsParse fs basePath fn).map (fun st => st.includes) = some [path] := by
  unfold dtsParse parseRecursive
  have hres' : resolvePath fs
      (⟨basePath, [rootNode], [], [], [], []⟩ : DtsParserSt).base_path
      (stripAngleQuote fn) = some path := hres
  simp only [hres', hget, Option.getD_some, hinc, List.foldlM_nil,
    List.not_mem_nil, if_false, pure]
  have hpc := processContent_preserves
    ⟨basePath, [rootNode], [], [path], [], []⟩
    (stripLineComments (stripBlockComments content.data)) 0
  have hpr := postProcess_includes (processContent
    ⟨basePath, [rootNode], [], [path], [], []⟩
    (stripLineComments (stripBlockComments content.data)) 0)
  have hpd := postProcess_includes (postProcessRouting (processContent
    ⟨basePath, [rootNode], [], [path], [], []⟩
    (stripLineComments (stripBlockComments content.data)) 0))
  simp only [List.nil_append]
  show some ((postProcessDailinks (postProcessRouting (processContent
    ⟨basePath, [rootNode], [], [path], [], []⟩
    (stripLineComments (stripBlockComments content.data)) 0))).includes)
      = some [path]
  rw [hpd.2, hpr.1, hpc.1]

/-! ## Claim C4: theorems -/


/-- C4 counterexample: the tree-identity clause is false as stated for a
DIRECT duplicate include.  The second `#include` is a no-op for B's
content (node `bn` appears exactly once in both parses), but the directive
text itself is never stripped from the token stream, so it pollutes the
following node header: A-with-two-directives and A-with-one-directive parse
to trees with different node names. -/
theorem C4_counterexample_direct_double_include :
    (dtsParse fsD2 "base" "a.dts").map (fun st => st.arena.map (·.name)) ≠
      (dtsParse fsD1 "base" "a.dts").map (fun st => st.arena.map (·.name)) ∧
    (dtsParse fsD2 "base" "a.dts").map
        (fun st => (st.arena.filter (fun n => n.name = "bn")).length)
      = some 1 ∧
    (dtsParse fsD1 "base" "a.dts").map
        (fun st => (st.arena.filter (fun n => n.name = "bn")).length)
      = some 1 := by
  exact ⟨by decide, by decide, by decide⟩

/-- C4 (amended): re-encountering an already-parsed resolved include path
is a strict no-op on the parser state, so an include that arrives a second
time TRANSITIVELY leaves the tree identical (shown on A→B, A→C→B versus
the same layout without C's re-inclusion, with B's node appearing once);
the parse terminates whenever the fuel exceeds the number of unvisited
filesystem paths — in particular the public parse always returns, even on
circular includes; and a file with no `#include` directives ends with
exactly its own resolved path in the include set.  (Tree identity does NOT
extend to adjacent literal duplicate directives, whose residual text
changes a neighbouring header — see the counterexample.) -/
theorem C4_include_noop_idempotent :
    (∀ (fs : Fs) (fuel : Nat) (fn : String) (root : Nat) (st : DtsParserSt)
        (path : String),
      resolvePath fs st.base_path (stripAngleQuote fn) = some path →
      path ∈ st.includes →
      parseRecursive fs (fuel + 1) fn root st = some st) ∧
    (dtsParse fsA1 "base" "a.dts" = dtsParse fsA2 "base" "a.dts" ∧
      (dtsParse fsA1 "base" "a.dts").map
          (fun st => (st.arena.filter (fun n => n.name = "bn")).length)
        = some 1) ∧
    (∀ (fs : Fs) (fuel : Nat) (fn : String) (root : Nat) (st : DtsParserSt),
      remCount fs st < fuel →
      (parseRecursive fs fuel fn root st).isSome = true) ∧
    (∀ (fs : Fs) (basePath fn : String),
      (dtsParse fs basePath fn).isSome = true) ∧
    (∀ (fs : Fs) (basePath fn path content : String),
      resolvePath fs basePath (stripAngleQuote fn) = some path →
      fsGet fs path = some content →
      findIncludes content = [] →
      (dtsParse fs basePath fn).map (fun st => st.includes) = some [path]) :=
  ⟨fun fs fuel fn root st path hres hmem =>
      parseRec_noop fs fuel fn root st path hres hmem,
   ⟨by decide, by decide⟩,
   fun fs fuel fn root st h => parseRec_total fs fuel fn root st h,
   dtsParse_total,
   dtsParse_singleton_includes⟩

/-- C4 witness: the no-op clause on an already-included entry file, the
termination clause at adequate fuel, and the singleton-include clause on a
single-file filesystem. -/
theorem C4_include_witness :
    parseRecursive fsD1 1 "a.dts" 0
        ⟨"base", [rootNode], [], ["base/a.dts"], [], []⟩ =
      some ⟨"base", [rootNode], [], ["base/a.dts"], [], []⟩ ∧
    (parseRecursive fsD1 3 "a.dts" 0
        ⟨"base", [rootNode], [], [], [], []⟩).isSome = true ∧
    (dtsParse [("base/one.dts", "n \x7b \x7d;")] "base" "one.dts").map
        (fun st => st.includes) = some ["base/one.dts"] :=
  ⟨C4_include_noop_idempotent.1 fsD1 0 "a.dts" 0
      ⟨"base", [rootNode], [], ["base/a.dts"], [], []⟩ "base/a.dts"
      (by decide) (by decide),
   C4_include_noop_idempotent.2.2.1 fsD1 3 "a.dts" 0
      ⟨"base", [rootNode], [], [], [], []⟩ (by decide),
   C4_include_noop_idempotent.2.2.2.2 [("base/one.dts", "n \x7b \x7d;")]
      "base" "one.dts" "base/one.dts" "n \x7b \x7d;"
      (by decide) (by decide) (by decide)⟩

/-! ## Claims C1, C8, C10: builder invariants -/


theorem setParent_keys (m : List (String × GNode)) (sid p : String) :
    (setParent m sid p).map (fun kv => kv.1) = m.map (fun kv => kv.1) := by
  unfold setParent
  rw [List.map_map]
  apply List.map_congr_left
  intro kv _
  by_cases h : kv.1 = sid <;> simp [h]

theorem setParentOpt_keys (m : List (String × GNode)) (sid : String)
    (p : Option String) :
    (setParentOpt m sid p).map (fun kv => kv.1) = m.map (fun kv => kv.1) := by
  unfold setParentOpt
  rw [List.map_map]
  apply List.map_congr_left
  intro kv _
  by_cases h : kv.1 = sid <;> simp [h]

theorem dictGet_none_iff (m : List (String × GNode)) (k : String) :
    dictGet m k = none ↔ ¬ hasKey m k := by
  unfold dictGet hasKey
  rw [Option.map_eq_none']
  rw [List.find?_eq_none]
  constructor
  · intro h hk
    obtain ⟨kv, hkv, hkey⟩ := List.mem_map.mp hk
    exact absurd (by simpa using hkey) (by simpa using h kv hkv)
  · intro h kv hkv
    simp only [decide_eq_true_eq]
    intro hkey
    exact h (List.mem_map.mpr ⟨kv, hkv, hkey⟩)

/-- With unique keys, any entry with key `k` is what `dictGet` returns. -/
theorem dictGet_unique (m : List (String × GNode)) (k : String)
    (kv : String × GNode) (hnd : (m.map (fun kv => kv.1)).Nodup)
    (hmem : kv ∈ m) (hk : kv.1 = k) : dictGet m k = some kv.2 := by
  induction m with
  | nil => cases hmem
  | cons a t ih =>
    simp only [List.map_cons, List.nodup_cons] at hnd
    rcases List.mem_cons.mp hmem with rfl | hmem'
    · unfold dictGet
      simp [List.find?_cons, hk]
    · have hak : a.1 ≠ k := by
        intro hak
        exact hnd.1 (hak ▸ hk ▸ List.mem_map.mpr ⟨kv, hmem', rfl⟩)
      unfold dictGet
      simp only [List.find?_cons, hak, decide_False]
      exact ih hnd.2 hmem'

theorem setParent_mapInv (m : List (String × GNode)) (sid p : String)
    (h : MapInv m) (hsid : strStartsWith sid "node_" = true) :
    MapInv (setParent m sid p) := by
  obtain ⟨hnd, hall⟩ := h
  refine ⟨by rw [setParent_keys]; exact hnd, ?_⟩
  intro kv' hkv'
  unfold setParent at hkv'
  obtain ⟨kv, hkv, heq⟩ := List.mem_map.mp hkv'
  obtain ⟨h1, h2, h3⟩ := hall kv hkv
  by_cases hk : kv.1 = sid
  · rw [if_pos hk] at heq
    subst heq
    have hng : kv.2.type ≠ "group" := h3 (hk ▸ hsid)
    exact ⟨h1, fun hg => absurd hg hng, fun _ => hng⟩
  · rw [if_neg hk] at heq
    subst heq
    exact ⟨h1, h2, h3⟩

theorem ensureParent_inv (m : List (String × GNode)) (sid : String)
    (h : MapInv m) :
    MapInv (ensureParent m sid) ∧
    (ensureParent m sid).map (fun kv => kv.1) = m.map (fun kv => kv.1) := by
  unfold ensureParent
  split
  · exact ⟨h, rfl⟩
  · next n hget =>
    split
    · exact ⟨h, rfl⟩
    · next hg =>
      split
      · exact ⟨h, rfl⟩
      · next hp =>
        obtain ⟨hnd, hall⟩ := h
        refine ⟨⟨by rw [setParentOpt_keys]; exact hnd, ?_⟩,
          setParentOpt_keys m sid _⟩
        intro kv' hkv'
        unfold setParentOpt at hkv'
        obtain ⟨kv, hkv, heq⟩ := List.mem_map.mp hkv'
        obtain ⟨h1, h2, h3⟩ := hall kv hkv
        by_cases hk : kv.1 = sid
        · rw [if_pos hk] at heq
          subst heq
          have hkn : kv.2 = n := by
            have hd := dictGet_unique m sid kv hnd hkv hk
            rw [hget] at hd
            exact (Option.some_injective _ hd).symm
          have hng : kv.2.type ≠ "group" := hkn ▸ hg
          exact ⟨h1, fun hgg => absurd hgg hng, fun _ => hng⟩
        · rw [if_neg hk] at heq
          subst heq
          exact ⟨h1, h2, h3⟩

theorem dictGet_isSome_hasKey (m : List (String × GNode)) (k : String)
    (h : (dictGet m k).isSome = true) : hasKey m k := by
  by_contra hc
  rw [(dictGet_none_iff m k).mpr hc] at h
  cases h

theorem hasKey_dictGet_isSome (m : List (String × GNode)) (k : String)
    (h : hasKey m k) : (dictGet m k).isSome = true := by
  cases hd : dictGet m k with
  | none => exact absurd h ((dictGet_none_iff m k).mp hd)
  | some _ => rfl

/-- The stored type of a fresh node is never `group` for non-`group`
requested types. -/
theorem freshNode_type_ne_group (rawId : String) (label : Option String)
    (ntype : String) (fullName : Option String) (hty : ntype ≠ "group") :
    (freshNode rawId label ntype fullName).type ≠ "group" := by
  unfold freshNode
  by_cases he : ntype = "" <;> simp [he, hty]

theorem addNodeMap_inv (m : List (String × GNode)) (rawId : String)
    (label : Option String) (ntype : String) (fullName : Option String)
    (h : MapInv m) (hty : ntype ≠ "group") :
    MapInv (addNodeMap m rawId label ntype fullName) ∧
    (∀ k, hasKey m k → hasKey (addNodeMap m rawId label ntype fullName) k) ∧
    hasKey (addNodeMap m rawId label ntype fullName) (getSafeId rawId) := by
  unfold addNodeMap
  split
  · next hsome => exact ⟨h, fun k hk => hk, dictGet_isSome_hasKey _ _ hsome⟩
  · next hnone =>
    have hnk : ¬ hasKey m (getSafeId rawId) := by
      intro hk
      exact hnone (hasKey_dictGet_isSome _ _ hk)
    obtain ⟨hnd, hall⟩ := h
    refine ⟨⟨?_, ?_⟩, ?_, ?_⟩
    · rw [List.map_append]
      rw [List.nodup_append]
      exact ⟨hnd, List.nodup_singleton _, by
        intro x hx hx2
        simp only [List.map_cons, List.map_nil, List.mem_singleton] at hx2
        exact hnk (hx2 ▸ hx)⟩
    · intro kv hkv
      rcases List.mem_append.mp hkv with hold | hnew
      · exact hall kv hold
      · rcases List.mem_singleton.mp hnew with rfl
        refine ⟨rfl, ?_, ?_⟩
        · intro hg
          exact absurd hg (freshNode_type_ne_group rawId label ntype fullName hty)
        · intro _
          exact freshNode_type_ne_group rawId label ntype fullName hty
    · intro k hk
      unfold hasKey at hk ⊢
      rw [List.map_append]
      exact List.mem_append_left _ hk
    · unfold hasKey
      rw [List.map_append]
      exact List.mem_append_right _ (by simp)

theorem addNodeRaw_inv (m : List (String × GNode)) (rawId : String)
    (label : Option String) (ntype : String) (fullName : Option String)
    (parent : Option String) (h : MapInv m) (hty : ntype ≠ "group") :
    MapInv (addNodeRaw m rawId label ntype fullName parent).1 ∧
    (∀ k, hasKey m k →
      hasKey (addNodeRaw m rawId label ntype fullName parent).1 k) ∧
    (∀ s, (addNodeRaw m rawId label ntype fullName parent).2 = some s →
      s = getSafeId rawId ∧
        hasKey (addNodeRaw m rawId label ntype fullName parent).1 s) := by
  unfold addNodeRaw
  split
  · exact ⟨h, fun k hk => hk, fun s hs => by cases hs⟩
  · obtain ⟨hm, hmono, hself⟩ := addNodeMap_inv m rawId label ntype fullName h hty
    cases parent with
    | none =>
      refine ⟨hm, hmono, ?_⟩
      intro s hs
      cases hs
      exact ⟨rfl, hself⟩
    | some p =>
      have hmv := setParent_mapInv _ (getSafeId rawId) p hm
        (getSafeId_starts_node rawId)
      have hkeys := setParent_keys (addNodeMap m rawId label ntype fullName)
        (getSafeId rawId) p
      refine ⟨hmv, ?_, ?_⟩
      · intro k hk
        show k ∈ _
        rw [show (setParent (addNodeMap m rawId label ntype fullName)
          (getSafeId rawId) p).map (fun kv => kv.1) = _ from hkeys]
        exact hmono k hk
      · intro s hs
        cases hs
        refine ⟨rfl, ?_⟩
        show getSafeId rawId ∈ _
        rw [show (setParent (addNodeMap m rawId label ntype fullName)
          (getSafeId rawId) p).map (fun kv => kv.1) = _ from hkeys]
        exact hself

theorem addEdge_inv (b : BState) (kind srcRaw dstRaw label : String)
    (h : BInv b) (hkind : kind = "hardware" ∨ kind = "dai") :
    BInv (addEdge b kind srcRaw dstRaw label) := by
  obtain ⟨hm, he⟩ := h
  obtain ⟨hm1, hmono1, hself1⟩ :=
    addNodeRaw_inv b.nodeMap srcRaw none "component" none none hm (by decide)
  obtain ⟨hm2, hmono2, hself2⟩ :=
    addNodeRaw_inv (addNodeRaw b.nodeMap srcRaw none "component" none none).1
      dstRaw none "component" none none hm1 (by decide)
  unfold addEdge
  split
  · next s d hs hd =>
    obtain ⟨hmE1, hkE1⟩ := ensureParent_inv
      (addNodeRaw (addNodeRaw b.nodeMap srcRaw none "component" none none).1
        dstRaw none "component" none none).1 s hm2
    obtain ⟨hmE2, hkE2⟩ := ensureParent_inv
      (ensureParent (addNodeRaw
        (addNodeRaw b.nodeMap srcRaw none "component" none none).1
        dstRaw none "component" none none).1 s) d hmE1
    have hkeyEq : ∀ k, hasKey (addNodeRaw (addNodeRaw b.nodeMap srcRaw none
        "component" none none).1 dstRaw none "component" none none).1 k →
        hasKey (ensureParent (ensureParent (addNodeRaw
          (addNodeRaw b.nodeMap srcRaw none "component" none none).1
          dstRaw none "component" none none).1 s) d) k := by
      intro k hk
      show k ∈ _
      rw [hkE2, hkE1]
      exact hk
    refine ⟨hmE2, ?_⟩
    intro e hee
    rcases List.mem_append.mp hee with hold | hnew
    · obtain ⟨hk, hsrc, htgt⟩ := he e hold
      exact ⟨hk, hkeyEq _ (hmono2 _ (hmono1 _ hsrc)),
        hkeyEq _ (hmono2 _ (hmono1 _ htgt))⟩
    · rcases List.mem_singleton.mp hnew with rfl
      refine ⟨hkind, ?_, ?_⟩
      · exact hkeyEq _ (hmono2 _ (hself1 s hs).2)
      · exact hkeyEq _ (hself2 d hd).2
  · refine ⟨hm2, ?_⟩
    intro e hee
    obtain ⟨hk, hsrc, htgt⟩ := he e hee
    exact ⟨hk, hmono2 _ (hmono1 _ hsrc), hmono2 _ (hmono1 _ htgt)⟩

/-- Adding a node (with any lane) preserves the builder invariant. -/
theorem addNodeState_inv (b : BState) (rawId : String) (label : Option String)
    (ntype : String) (fullName : Option String) (parent : Option String)
    (h : BInv b) (hty : ntype ≠ "group") :
    BInv { b with
      nodeMap := (addNodeRaw b.nodeMap rawId label ntype fullName parent).1 } := by
  obtain ⟨hm, he⟩ := h
  obtain ⟨hm', hmono, -⟩ :=
    addNodeRaw_inv b.nodeMap rawId label ntype fullName parent hm hty
  refine ⟨hm', ?_⟩
  intro e hee
  obtain ⟨hk, hsrc, htgt⟩ := he e hee
  exact ⟨hk, hmono _ hsrc, hmono _ htgt⟩

theorem endpointType_ne_group (tok : String) : endpointType tok ≠ "group" := by
  intro h
  unfold endpointType at h
  split at h
  · simp_all
  · split at h <;> simp_all

theorem procCodecTok_inv (acc : LinkAcc) (tok : String) (h : BInv acc.b) :
    BInv (procCodecTok acc tok).b := by
  unfold procCodecTok
  repeat' split
  all_goals first
    | exact h
    | exact addNodeState_inv _ _ _ _ _ _ h (by decide)
    | exact addNodeState_inv _ _ _ _ _ _ h (endpointType_ne_group tok)

theorem linkCpus_inv (b : BState) (cpus : List String) (h : BInv b) :
    BInv (linkCpus b cpus) :=
  foldl_invariant _ BInv
    (fun b a hb => addNodeState_inv b a (some a) "cpu" (some a)
      (some "grp_lpass") hb (by decide))
    cpus b h

theorem linkWireSpf_inv (b : BState) (macrosL : List (String × String))
    (masters : List (Nat × String)) (h : BInv b) :
    BInv (linkWireSpf b macrosL masters) := by
  unfold linkWireSpf
  split
  · exact foldl_invariant _ BInv
      (fun b p hb => foldl_invariant _ BInv
        (fun bb q hbb => addEdge_inv bb "hardware" p.1 q.2 "" hbb (Or.inl rfl))
        masters b hb)
      macrosL _
      (foldl_invariant _ BInv
        (fun b p hb => addEdge_inv b "hardware" "lpass.spf" p.1 "" hb (Or.inl rfl))
        macrosL b h)
  · exact foldl_invariant _ BInv
      (fun b q hb => addEdge_inv b "hardware" "lpass.spf" q.2 "" hb (Or.inl rfl))
      masters b h

theorem linkWireMain_inv (b : BState) (macrosL : List (String × String))
    (masters : List (Nat × String)) (endpoints : List String) (h : BInv b) :
    BInv (linkWireMain b macrosL masters endpoints) := by
  unfold linkWireMain
  split
  · refine foldl_invariant _ BInv (fun b q hb => ?_) masters b h
    refine foldl_invariant _ BInv (fun bb ep hbb => ?_) endpoints _ ?_
    · split
      · exact hbb
      · exact addEdge_inv bb "hardware" q.2 ep "" hbb (Or.inl rfl)
    · split
      · refine foldl_invariant _ BInv (fun bb ep hbb => ?_) endpoints _ ?_
        · split
          · exact addEdge_inv bb "hardware" "periph.wsa_auto" ep "" hbb
              (Or.inl rfl)
          · exact hbb
        · exact addEdge_inv _ "hardware" q.2 "periph.wsa_auto" ""
            (addNodeState_inv b "periph.wsa_auto" (some "Wsa Amplifier") "amp"
              (some "WSA Amplifier") (some "grp_peripherals") hb (by decide))
            (Or.inl rfl)
      · exact hb
  · split
    · exact foldl_invariant _ BInv
        (fun b p hb => foldl_invariant _ BInv
          (fun bb ep hbb => addEdge_inv bb "hardware" p.1 ep "" hbb (Or.inl rfl))
          endpoints b hb)
        macrosL b h
    · exact foldl_invariant _ BInv
        (fun bb ep hbb => addEdge_inv bb "hardware" "bus.pcm" ep "" hbb
          (Or.inl rfl))
        endpoints _
        (addEdge_inv b "hardware" "lpass.spf" "bus.pcm" "" h (Or.inl rfl))

theorem linkVa_inv (b : BState) (macrosL : List (String × String))
    (h : BInv b) : BInv (linkVa b macrosL) := by
  unfold linkVa
  split
  · refine addEdge_inv _ "hardware" "bus.dmic" "periph.dmic" "" ?_ (Or.inl rfl)
    exact addNodeState_inv _ "periph.dmic" (some "DMICs") "component"
      (some "Digital Microphones") (some "grp_peripherals")
      (addEdge_inv b "hardware" "lpass.vamacro" "bus.dmic" "" h (Or.inl rfl))
      (by decide)
  · exact h

theorem linkDaiEdges_inv (b : BState) (cpus codecs : List String)
    (name : String) (h : BInv b) : BInv (linkDaiEdges b cpus codecs name) :=
  foldl_invariant _ BInv
    (fun b cpu hb => foldl_invariant _ BInv
      (fun bb codec hbb => addEdge_inv bb "dai" cpu codec name hbb (Or.inr rfl))
      codecs b hb)
    cpus b h

theorem linkWcdSink_inv (b : BState) (endpoints : List String) (h : BInv b) :
    BInv (linkWcdSink b endpoints) := by
  unfold linkWcdSink
  split
  · refine foldl_invariant _ BInv (fun bb ep hbb => ?_) endpoints _ ?_
    · split
      · exact addEdge_inv bb "hardware" ep "sink.headset" "" hbb (Or.inl rfl)
      · exact hbb
    · exact addNodeState_inv b "sink.headset" (some "Headphones / Earpiece")
        "speaker" (some "Headphones / Earpiece") (some "grp_speakers") h
        (by decide)
  · exact h

theorem procLink_inv (b : BState) (link : DaiLink) (h : BInv b) :
    BInv (procLink b link) := by
  unfold procLink
  exact linkWcdSink_inv _ _
    (linkDaiEdges_inv _ _ _ _
      (linkVa_inv _ _
        (linkWireMain_inv _ _ _ _
          (linkWireSpf_inv _ _ _
            (foldl_invariant procCodecTok (fun acc => BInv acc.b)
              (fun acc tok hacc => procCodecTok_inv acc tok hacc)
              link.codec ⟨linkCpus b link.cpu, [], [], []⟩
              (linkCpus_inv b link.cpu h))))))

theorem hwAddNode_inv (b : BState) (n : HwNode) (h : BInv b)
    (hty : n.type ≠ "group") : BInv (hwAddNode b n) := by
  unfold hwAddNode
  split
  · exact h
  · split
    · next sid hs =>
      split
      · obtain ⟨hm, he⟩ := h
        obtain ⟨hm1, hmono1, hself1⟩ :=
          addNodeRaw_inv b.nodeMap n.id (some n.label) n.type
            (some n.full_name) none hm hty
        obtain ⟨hsid, -⟩ := hself1 sid hs
        have hmv := setParent_mapInv _ sid "grp_host" hm1
          (hsid ▸ getSafeId_starts_node n.id)
        have hkeys := setParent_keys
          (addNodeRaw b.nodeMap n.id (some n.label) n.type
            (some n.full_name) none).1 sid "grp_host"
        refine addEdge_inv _ "hardware" n.id "host.kdrv" "" ⟨hmv, ?_⟩
          (Or.inl rfl)
        intro e hee
        obtain ⟨hk, hsrc, htgt⟩ := he e hee
        have hmk : ∀ k, hasKey b.nodeMap k →
            hasKey (setParent (addNodeRaw b.nodeMap n.id (some n.label) n.type
              (some n.full_name) none).1 sid "grp_host") k := by
          intro k hk2
          show k ∈ _
          rw [hkeys]
          exact hmono1 k hk2
        exact ⟨hk, hmk _ hsrc, hmk _ htgt⟩
      · exact addNodeState_inv b n.id (some n.label) n.type (some n.full_name)
          none h hty
    · exact addNodeState_inv b n.id (some n.label) n.type (some n.full_name)
        none h hty

theorem ensureAll_inv (b : BState) (h : BInv b) : BInv (ensureAll b) := by
  obtain ⟨hm, he⟩ := h
  unfold ensureAll
  have hfold : ∀ (sids : List String),
      MapInv ((sids.foldl ensureParent b.nodeMap)) ∧
      ((sids.foldl ensureParent b.nodeMap)).map (fun kv => kv.1) =
        b.nodeMap.map (fun kv => kv.1) := by
    intro sids
    induction sids using List.reverseRecOn with
    | nil => exact ⟨hm, rfl⟩
    | append_singleton t x ih =>
      rw [List.foldl_append, List.foldl_cons, List.foldl_nil]
      obtain ⟨hmI, hkI⟩ := ih
      obtain ⟨hmE, hkE⟩ := ensureParent_inv _ x hmI
      exact ⟨hmE, hkE.trans hkI⟩
  obtain ⟨hmF, hkF⟩ := hfold (b.nodeMap.map (fun kv => kv.1))
  refine ⟨hmF, ?_⟩
  intro e hee
  obtain ⟨hk, hsrc, htgt⟩ := he e hee
  refine ⟨hk, ?_, ?_⟩
  · show e.source ∈ _
    rw [hkF]
    exact hsrc
  · show e.target ∈ _
    rw [hkF]
    exact htgt

theorem dmicFinal_inv (b : BState) (h : BInv b) : BInv (dmicFinal b) := by
  unfold dmicFinal
  split
  · exact addEdge_inv _ "hardware" "bus.dmic" "periph.dmic" ""
      (addNodeState_inv b "periph.dmic" (some "DMICs") "component"
        (some "Digital Microphones") (some "grp_peripherals") h (by decide))
      (Or.inl rfl)
  · exact h

set_option maxRecDepth 4000 in
theorem seedAnchors_inv : BInv ⟨seedAnchorsMap, []⟩ := by
  constructor
  · constructor
    · decide
    · decide
  · intro e hee
    cases hee

theorem foldl_invariant_mem {α β : Type} (f : β → α → β) (P : β → Prop) :
    ∀ (l : List α), (∀ b a, a ∈ l → P b → P (f b a)) →
      ∀ b, P b → P (l.foldl f b) := by
  intro l
  induction l with
  | nil => intro _ b hb; exact hb
  | cons x t ih =>
    intro hf b hb
    exact ih (fun b a ha hb => hf b a (List.mem_cons_of_mem x ha) hb) _
      (hf b x (List.mem_cons_self x t) hb)

theorem buildGraphCore_inv (hw : List HwNode) (dailinks : List DaiLink)
    (htys : ∀ n ∈ hw, n.type ≠ "group") :
    BInv (buildGraphCore hw dailinks) := by
  unfold buildGraphCore
  refine dmicFinal_inv _ (ensureAll_inv _ ?_)
  refine foldl_invariant procLink BInv
    (fun b l hb => procLink_inv b l hb) dailinks _ ?_
  have hskel : BInv (skeletonEdges ⟨seedAnchorsMap, []⟩) := by
    unfold skeletonEdges
    exact addEdge_inv _ "hardware" "host.ddr" "lpass.spf" ""
      (addEdge_inv _ "hardware" "host.kdrv" "host.ddr" ""
        (addEdge_inv _ "hardware" "host.app" "host.kdrv" ""
          seedAnchors_inv (Or.inl rfl)) (Or.inl rfl)) (Or.inl rfl)
  exact foldl_invariant_mem hwAddNode BInv hw
    (fun b n hn hb => hwAddNode_inv b n hb (htys n hn)) _ hskel

theorem hwClassify_ne_group (n : NodeData) : hwClassify n ≠ "group" := by
  intro h
  unfold hwClassify at h
  split at h
  · simp_all
  · split at h
    · simp_all
    · split at h <;> simp_all

theorem hwLoopAux_ne_group (arena : List NodeData) :
    ∀ (fuel : Nat) (queue : List Nat) (acc : List HwNode),
      (∀ n ∈ acc, n.type ≠ "group") →
      ∀ n ∈ hwLoopAux arena fuel queue acc, n.type ≠ "group" := by
  intro fuel
  induction fuel with
  | zero =>
    intro queue acc h n hn
    simp only [hwLoopAux] at hn
    exact h n hn
  | succ fuel ih =>
    intro queue acc h n hn
    cases queue with
    | nil => exact h n hn
    | cons i rest =>
      refine ih (rest ++ (nodeAt arena i).children) _ ?_ n hn
      intro m hm
      by_cases hc : hwClassify (nodeAt arena i) ≠ "component"
      · rw [if_pos hc] at hm
        rcases List.mem_append.mp hm with hm1 | hm2
        · exact h m hm1
        · rcases List.mem_singleton.mp hm2 with rfl
          exact hwClassify_ne_group _
      · rw [if_neg hc] at hm
        exact h m hm

/-- Every hardware-pass node carries a non-`group` type. -/
theorem getHardwareNodes_ne_group (st : DtsParserSt) :
    ∀ n ∈ getHardwareNodes st, n.type ≠ "group" := by
  intro n hn
  unfold getHardwareNodes at hn
  rcases List.mem_append.mp hn with hbase | hloop
  · split at hbase
    · rcases List.mem_singleton.mp hbase with rfl
      show ("sndcard" : String) ≠ "group"
      decide
    · cases hbase
  · exact hwLoopAux_ne_group st.arena _ _ _
      (fun m hm => absurd hm (List.not_mem_nil m)) n hloop

/-- C8: for every input ParsedModel, every node of type `group` in the
graph returned by `build_graph_json` carries no parent: lane containers are
never themselves assigned a lane by any construction or lane-assignment
step.  (Stated over every parser state, hence over every ParsedModel.) -/
theorem C8_group_nodes_have_no_parent (st : DtsParserSt) :
    ((buildGraphJson st).nodes.all
      (fun n => n.type != "group" || n.parent.isNone)) = true := by
  rw [List.all_eq_true]
  intro n hn
  unfold buildGraphJson at hn
  obtain ⟨kv, hkv, heq⟩ := List.mem_map.mp hn
  obtain ⟨⟨-, hall⟩, -⟩ := buildGraphCore_inv (getHardwareNodes st)
    st.dailinks (getHardwareNodes_ne_group st)
  obtain ⟨-, h2, -⟩ := hall kv hkv
  subst heq
  by_cases hg : kv.2.type = "group"
  · simp [h2 hg]
  · simp [hg]

/-- C10: for every input ParsedModel, the graph returned by
`build_graph_json` is referentially closed — every edge's source and target
id is the id of some node in the returned node list. -/
theorem C10_edges_referentially_closed (st : DtsParserSt) :
    ((buildGraphJson st).edges.all (fun e =>
      ((buildGraphJson st).nodes.any (fun n => n.id == e.source)) &&
      ((buildGraphJson st).nodes.any (fun n => n.id == e.target)))) = true := by
  rw [List.all_eq_true]
  intro e he
  obtain ⟨⟨-, hall⟩, hedges⟩ := buildGraphCore_inv (getHardwareNodes st)
    st.dailinks (getHardwareNodes_ne_group st)
  obtain ⟨-, hsrc, htgt⟩ := hedges e he
  rw [Bool.and_eq_true]
  constructor <;> rw [List.any_eq_true]
  · obtain ⟨kv, hkv, hk⟩ := List.mem_map.mp hsrc
    refine ⟨kv.2, ?_, ?_⟩
    · exact List.mem_map.mpr ⟨kv, hkv, rfl⟩
    · rw [(hall kv hkv).1, hk]
      simp
  · obtain ⟨kv, hkv, hk⟩ := List.mem_map.mp htgt
    refine ⟨kv.2, ?_, ?_⟩
    · exact List.mem_map.mpr ⟨kv, hkv, rfl⟩
    · rw [(hall kv hkv).1, hk]
      simp

set_option maxRecDepth 10000 in
/-- C1: contrary to the claim, `build_graph_json` never emits an edge of
kind `routing` — every edge it returns has kind `hardware` or `dai`, for
every input, and the routing relation is never consulted.  Concretely, the
parse of the synthetic sound-card source carries one routing pair, yet its
graph's five edges include no routing edge (the frontend's routing tab,
which filters this graph for `kind == routing`, is thus always empty). -/
theorem C1_no_routing_edges_emitted :
    (∀ st : DtsParserSt,
      ((buildGraphJson st).edges.all (fun e => e.kind != "routing")) = true) ∧
    ((dtsParse fsC7 "base" "snd.dts").map (fun st => st.routing) =
      some [("SpkrLeft", "WSA_RX0")]) ∧
    ((dtsParse fsC7 "base" "snd.dts").map (fun st =>
      ((buildGraphJson st).edges.length,
       (buildGraphJson st).edges.countP (fun e => e.kind == "routing")))
      = some (5, 0)) := by
  refine ⟨?_, by decide, by decide⟩
  intro st
  rw [List.all_eq_true]
  intro e he
  obtain ⟨-, hedges⟩ := buildGraphCore_inv (getHardwareNodes st)
    st.dailinks (getHardwareNodes_ne_group st)
  obtain ⟨hk, -, -⟩ := hedges e he
  rcases hk with h | h <;> rw [h] <;> decide

/-! ## Claim C3 -/


/-- The loop of `get_sound_card_node` returns the first node in BFS order
passing check 1 or check 2; only when the whole traversal passes does it
fall back to the first name-matched candidate. -/
theorem soundCard_eq_bfsFind (arena : List NodeData) :
    ∀ (fuel : Nat) (queue cands : List Nat),
      soundCardAux arena fuel queue cands =
        match (bfsOrderAux arena fuel queue).find? (strongHit arena) with
        | some i => some i
        | none =>
          (cands ++ (bfsOrderAux arena fuel queue).filter
            (fun i => soundNameHit (nodeAt arena i))).head? := by
  intro fuel
  induction fuel with
  | zero =>
    intro queue cands
    simp [soundCardAux, bfsOrderAux]
  | succ fuel ih =>
    intro queue cands
    cases queue with
    | nil => simp [soundCardAux, bfsOrderAux]
    | cons i rest =>
      unfold soundCardAux bfsOrderAux
      rw [List.find?_cons]
      by_cases hm : soundMarkerHit (nodeAt arena i).props
      · simp [strongHit, hm]
      · by_cases ha : hasAudioRouting (nodeAt arena i).props
        · simp [strongHit, hm, ha]
        · have hs : strongHit arena i = false := by
            simp [strongHit, hm, ha]
          simp only [hm, if_false, ha, hs]
          rw [ih]
          cases hfind : (bfsOrderAux arena fuel
              (rest ++ (nodeAt arena i).children)).find?
              (strongHit arena) with
          | some j => simp
          | none =>
            simp only []
            rw [List.filter_cons]
            by_cases hn : soundNameHit (nodeAt arena i)
            · simp [hn, List.append_assoc]
            · simp [hn]


theorem C3_counterexample_audio_routing_preempts :
    (dtsParse fsC3 "base" "a.dts").map (fun st =>
      ((getSoundCardNode st).map (fun i => (st.arena.getD i default).name),
       (getSoundCardNode st).map (fun i =>
         soundMarkerHit (nodeAt st.arena i).props),
       st.arena.any (fun n => soundMarkerHit n.props)))
      = some (some "a", some false, true) := by decide

/-- C3 (amended): sound-card discovery is a SINGLE breadth-first pass that
returns the first node (in BFS order) whose `compatible` value contains a
sound-card marker or which has an `audio-routing` property — the two checks
are applied per node, compatible first, so an earlier audio-routing node
preempts a later marker-compatible one; only if no node passes either check
does it return the first BFS-order node whose name contains `sound` but not
`pinctrl`; otherwise no sound card is reported. -/
theorem C3_sound_card_single_pass (st : DtsParserSt) :
    getSoundCardNode st =
      match (bfsOrderAux st.arena (bfsFuel st.arena) [0]).find?
          (strongHit st.arena) with
      | some i => some i
      | none =>
        ((bfsOrderAux st.arena (bfsFuel st.arena) [0]).filter
          (fun i => soundNameHit (nodeAt st.arena i))).head? := by
  have h := soundCard_eq_bfsFind st.arena (bfsFuel st.arena) [0] []
  simpa using h

/-- C7 witness: the pairing equation at an odd-length list and the routing
equation at the concretely parsed model. -/
theorem C7_routing_witness :
    pairRangeCode ["x", "y", "z"] = pairUpSpec ["x", "y", "z"] ∧
    (postProcessRouting ((dtsParse fsC7 "base" "snd.dts").getD
        ⟨"", [], [], [], [], []⟩)).routing =
      ((dtsParse fsC7 "base" "snd.dts").getD ⟨"", [], [], [], [], []⟩).routing
        ++ pairUpSpec (quotedSpans "\"SpkrLeft\", \"WSA_RX0\"") :=
  ⟨C7_routing_roundtrip_and_pairing.2.1 ["x", "y", "z"],
   C7_routing_roundtrip_and_pairing.2.2
     ((dtsParse fsC7 "base" "snd.dts").getD ⟨"", [], [], [], [], []⟩)
     1 "\"SpkrLeft\", \"WSA_RX0\"" (by decide) (by decide)⟩

/-! ## C9: the limited deep walk -/

theorem childAtIdx_name_mem : ∀ (cs : FChildren) (j : Nat) (n : String)
    (t : FTree), childAtIdx cs j = some (n, t) → n ∈ childNames cs
  | .nil, j, n, t, h => by simp [childAtIdx] at h
  | .cons m t' rest, 0, n, t, h => by
      simp only [childAtIdx, Option.some.injEq, Prod.mk.injEq] at h
      simp [childNames, h.1]
  | .cons m t' rest, j + 1, n, t, h => by
      simp only [childAtIdx] at h
      simp only [childNames, List.mem_cons]
      exact Or.inr (childAtIdx_name_mem rest j n t h)

theorem firstIdx_of_childAtIdx : ∀ (cs : FChildren) (j : Nat) (n : String)
    (t : FTree), ndC cs = true → childAtIdx cs j = some (n, t) →
    ∀ i, firstIdx cs n i = some (i + j)
  | .nil, j, n, t, _, h => by simp [childAtIdx] at h
  | .cons m t' rest, 0, n, t, _, h => by
      intro i
      simp only [childAtIdx, Option.some.injEq, Prod.mk.injEq] at h
      obtain ⟨rfl, -⟩ := h
      simp [firstIdx]
  | .cons m t' rest, j + 1, n, t, hnd, h => by
      intro i
      simp only [childAtIdx] at h
      simp only [ndC, Bool.and_eq_true, Bool.not_eq_true',
        decide_eq_false_iff_not] at hnd
      obtain ⟨⟨hc, -⟩, hR⟩ := hnd
      have hmem := childAtIdx_name_mem rest j n t h
      have hne : ¬ (m = n) := fun e => hc (e ▸ hmem)
      rw [firstIdx, if_neg hne]
      rw [firstIdx_of_childAtIdx rest j n t hR h (i + 1)]
      congr 1
      omega

/-- With distinct sibling names, a child bearing a pruned name always has
its index in the skip set (`list.remove` removes the first occurrence,
which is then the only one). -/
theorem pruneIdxs_complete (cs : FChildren) (hnd : ndC cs = true)
    (j : Nat) (n : String) (t : FTree)
    (h : childAtIdx cs j = some (n, t)) (hp : n ∈ prunedList) :
    j ∈ pruneIdxs cs := by
  have hf := firstIdx_of_childAtIdx cs j n t hnd h 0
  rw [pruneIdxs, List.mem_filterMap]
  exact ⟨n, hp, by simpa using hf⟩

mutual
theorem walkVisit_no_pruned : ∀ (t : FTree) (path : List String),
    ndT t = true → (∀ c ∈ path, c ∉ prunedList) →
    ∀ v ∈ walkVisit t path, ∀ c ∈ v.1, c ∉ prunedList
  | .dir cs, path, hnd, hp => by
      intro v hv
      rw [walkVisit] at hv
      rcases List.mem_cons.mp hv with h | h
      · subst h; exact hp
      · exact walkKids_no_pruned cs path (pruneIdxs cs) 0 hnd hp
          (fun j n t' hat hpr => by
            simpa using pruneIdxs_complete cs hnd j n t' hat hpr) v h

theorem walkKids_no_pruned : ∀ (cs : FChildren) (path : List String)
    (skip : List Nat) (i : Nat), ndC cs = true →
    (∀ c ∈ path, c ∉ prunedList) →
    (∀ j n t, childAtIdx cs j = some (n, t) → n ∈ prunedList →
      i + j ∈ skip) →
    ∀ v ∈ walkKids cs path skip i, ∀ c ∈ v.1, c ∉ prunedList
  | .nil, path, skip, i, _, _, _ => by
      intro v hv
      simp [walkKids] at hv
  | .cons n t rest, path, skip, i, hnd, hp, hskip => by
      have hnd' := hnd
      simp only [ndC, Bool.and_eq_true, Bool.not_eq_true',
        decide_eq_false_iff_not] at hnd'
      obtain ⟨⟨-, hT⟩, hR⟩ := hnd'
      intro v hv
      rw [walkKids] at hv
      rcases List.mem_append.mp hv with h | h
      · by_cases hi : i ∈ skip
        · rw [if_pos hi] at h; cases h
        · rw [if_neg hi] at h
          refine walkVisit_no_pruned t (path ++ [n]) hT ?_ v h
          intro c hcmem
          rcases List.mem_append.mp hcmem with hc1 | hc1
          · exact hp c hc1
          · have hcn : c = n := List.mem_singleton.mp hc1
            subst hcn
            intro hnp
            exact hi (by simpa using hskip 0 c t rfl hnp)
      · refine walkKids_no_pruned rest path skip (i + 1) hR hp ?_ v h
        intro j n' t' hat hpr
        have hstep := hskip (j + 1) n' t' (by simpa [childAtIdx] using hat) hpr
        have e : i + (j + 1) = i + 1 + j := by omega
        rw [e] at hstep
        exact hstep
end

theorem findSomeEx {α β : Type} (f : α → Option β) :
    ∀ (l : List α) (b : β), l.findSome? f = some b → ∃ a ∈ l, f a = some b := by
  intro l
  induction l with
  | nil => intro b h; simp [List.findSome?] at h
  | cons x xs ih =>
    intro b h
    rw [List.findSome?_cons] at h
    cases hfx : f x with
    | some y =>
      rw [hfx] at h
      exact ⟨x, List.mem_cons_self x xs, by rw [hfx]; exact h⟩
    | none =>
      rw [hfx] at h
      obtain ⟨a, ha, hfa⟩ := ih b h
      exact ⟨a, List.mem_cons_of_mem x ha, hfa⟩

/-- A successful deep search returns a path of at most 6 components (a
visited directory of depth at most 4 plus `dts/qcom`). -/
theorem deepSearch_result_shape (t : FTree) (p : List String)
    (h : deepSearch t = some p) :
    p.length ≤ 6 ∧ p.drop (p.length - 2) = ["dts", "qcom"] := by
  rw [deepSearch] at h
  obtain ⟨v, hv, hf⟩ := findSomeEx _ _ _ h
  split at hf
  · exact absurd hf (by simp)
  next h4 =>
    split at hf
    · split at hf
      · have hp : p = v.1 ++ ["dts", "qcom"] := (Option.some.injEq _ _ ▸ hf).symm
        subst hp
        have hlen : v.1.length ≤ 4 := by omega
        constructor
        · simp [List.length_append]; omega
        · have e : (v.1 ++ ["dts", "qcom"]).length - 2 = v.1.length := by
            simp [List.length_append]
          rw [e, List.drop_left]
      · exact absurd hf (by simp)
    · exact absurd hf (by simp)

/-- The locator returns `none` exactly when all three strategies fail. -/
theorem getDtsBasePath_none_iff (t : FTree) :
    getDtsBasePath t = none ↔
      strategy1 t = none ∧ strategy2 t = none ∧ deepSearch t = none := by
  rw [getDtsBasePath]
  cases h1 : strategy1 t with
  | some p => simp [h1]
  | none =>
    cases h2 : strategy2 t with
    | some p => simp [h2]
    | none => simp [h2]

set_option maxRecDepth 2000 in
/-- C9 counterexample: on a 6-deep chain of single-child directories the
walk visits all 7 directories, including two more than 4 levels below the
root — the depth guard only `continue`s past the dts test for deep
entries, it never stops `os.walk` from descending, so the walk is not
depth-bounded and its running time grows with the whole tree. -/
theorem C9_counterexample_walk_descends_deep :
    ((walkVisit (chainT 6) []).any (fun v => decide (4 < v.1.length))) = true ∧
    (walkVisit (chainT 6) []).length = 7 ∧
    getDtsBasePath (chainT 6) = none := by
  refine ⟨by decide, by decide, by decide⟩

/-- C9 (amended): on any tree with distinct sibling names the walk never
enters a pruned directory (`out`, `.git`, `sstate-cache`); any deep-search
result has at most 6 components and ends in `dts/qcom` (visited depth at
most 4 plus two); and the locator returns `none` exactly when all three
strategies fail — not found is a plain empty result, not an error. -/
theorem C9_walk_prunes_bounded (t : FTree) (p : List String)
    (hnd : ndT t = true) :
    (∀ v ∈ walkVisit t [], ∀ c ∈ v.1, c ∉ prunedList) ∧
    (deepSearch t = some p →
      p.length ≤ 6 ∧ p.drop (p.length - 2) = ["dts", "qcom"]) ∧
    (getDtsBasePath t = none ↔
      strategy1 t = none ∧ strategy2 t = none ∧ deepSearch t = none) := by
  refine ⟨walkVisit_no_pruned t [] hnd (by simp), ?_, getDtsBasePath_none_iff t⟩
  exact deepSearch_result_shape t p

/-- C9 witness: a concrete tree with distinct sibling names whose only
`dts/qcom` sits inside the pruned `out` directory, so the locator reports
not found. -/
theorem C9_walk_witness :
    ndT tC9w = true ∧ getDtsBasePath tC9w = none :=
  ⟨by decide,
   ((C9_walk_prunes_bounded tC9w [] (by decide)).2.2).mpr
     ⟨by decide, by decide, by decide⟩⟩

end QBuild
